import Mathlib

/-! # dist-task-scheduler: the worker pool of `main.go`

A shallow embedding of `src/main.go` as a transition system.

The program has three kinds of threads: `main`, the worker goroutines
(`worker`, lines 21-38) and the anonymous recovery goroutine (lines 82-99).
Every thread has a program counter; one `Action` lets one thread execute its
next statement.  A thread whose next statement blocks (receive on an empty open
channel, send on a full channel, `wg.Wait()` waiting for its wake-up) has no
step.  The verdict `rand.Float32() < 0.3` is the only source of randomness that
matters and is supplied by the action.  `time.Sleep` is not modelled.

Go semantics used: a receive from a closed channel still delivers buffered
values and ends a `range` loop only when the buffer is empty; a send on a closed
channel panics; a panic in any goroutine ends the process; returning from `main`
ends the process; a missing map key reads as 0.

The `sync.WaitGroup` has a counter, a count of waiters and a semaphore.
`wg.Wait()` returns at once if the counter is zero; otherwise it registers as a
waiter and blocks on the semaphore, and when woken it panics ("WaitGroup is
reused before previous Wait has returned") unless the counter is still zero.
`wg.Done()` panics on a negative counter and, when it brings the counter to
zero, resets the waiters and releases one wake-up for each.  `wg.Add(1)` panics
("Add called concurrently with Wait") if it raises the counter from zero while
a waiter is registered.  Each of these calls is taken as one step.

Integers: `int` values are task ids (`Int`), and counters that are never
negative and stay far below `2^63` (worker ids, the WaitGroup counter, ledger
entries, loop indices), modelled as `Nat`.
-/

namespace DistTaskScheduler

/-- The struct `Task` (lines 11-15). -/
structure Task where
  id : Int
  data : String
  retryCount : Int
deriving DecidableEq, Repr

/-- The constant `MaxRetries = 3` (line 18). -/
def MaxRetries : Nat := 3

/-- Outcome of the test `rand.Float32() < 0.3` (line 28): `failure` when it holds. -/
inductive Verdict where
  | success
  | failure
deriving DecidableEq, Repr

/-- The lines the program prints, with their parameters. -/
inductive Event where
  /-- Line `Worker %d started task %d: %s` (line 25). -/
  | workerStarted (worker : Nat) (task : Int) (data : String)
  /-- Line `Worker %d failed on task %d` (line 29). -/
  | workerFailed (worker : Nat) (task : Int)
  /-- Line `Worker %d completed task %d` (line 36). -/
  | workerCompleted (worker : Nat) (task : Int)
  /-- Line `Task %d has exceeded the retry limit of %d ...` (line 88). -/
  | retryLimitExceeded (task : Int) (limit : Nat)
  /-- Line `Reassigning failed task %d (Retry %d)` (line 92). -/
  | reassigning (task : Int) (retry : Nat)
  /-- Line `All tasks completed.` (line 105). -/
  | allTasksCompleted
deriving DecidableEq, Repr

/-- Program counter of one `worker` goroutine. -/
inductive WorkerPC where
  /-- At the head of `for task := range taskChan` (line 24). -/
  | recv
  /-- Holding a task, after the "started" line, before the verdict (line 28). -/
  | running (task : Task)
  /-- After the "failed" line, at `failChan <- task` (line 30). -/
  | sending (task : Task)
  /-- Leaving the function, the deferred `wg.Done()` still to run (line 22). -/
  | returning
  /-- Goroutine ended. -/
  | done
deriving DecidableEq, Repr

/-- One `worker` goroutine: its `id` argument and where it stands. -/
structure Worker where
  id : Nat
  pc : WorkerPC
deriving DecidableEq, Repr

/-- Program counter of `main` (lines 40-106). -/
inductive MainPC where
  /-- Loop `for i := 1; i <= numWorkers; i++` (lines 69-72), about to test `i`. -/
  | startWorkers (i : Nat)
  /-- Loop `for _, task := range tasks` (lines 75-78), at index `k`. -/
  | distribute (k : Nat)
  /-- At `close(taskChan)` (line 79). -/
  | closeTaskChan
  /-- At `go func() ...` (line 82). -/
  | startRecovery
  /-- At `wg.Wait()` (line 102). -/
  | waitWorkers
  /-- At `close(failChan)` (line 103). -/
  | closeFailChan
  /-- At `fmt.Println("All tasks completed.")` (line 105). -/
  | printDone
  /-- Returned from `main`: the process has ended. -/
  | exited
deriving DecidableEq, Repr

/-- Program counter of the recovery goroutine (lines 82-99). -/
inductive RecoveryPC where
  | notStarted
  /-- At the head of `for failedTask := range failChan` (line 83). -/
  | listening
  /-- The `range` loop ended: `failChan` closed and drained. -/
  | finished
deriving DecidableEq, Repr

/-- The values fixed in `main` before anything runs: the batch (lines 44-50),
`numWorkers` (line 60) and the retry bound `MaxRetries` (line 18). -/
structure Config where
  tasks : List Task
  numWorkers : Nat
  maxRetries : Nat

/-- The configuration written in `main.go`. -/
def mainConfig : Config where
  tasks := [⟨1, "Task 1", 0⟩, ⟨2, "Task 2", 0⟩, ⟨3, "Task 3", 0⟩,
            ⟨4, "Task 4", 0⟩, ⟨5, "Task 5", 0⟩]
  numWorkers := 3
  maxRetries := MaxRetries

/-- Everything the threads share, plus the program counters. -/
structure State where
  mainPC : MainPC
  recovery : RecoveryPC
  /-- All worker goroutines ever started, in the order of their `go` statement. -/
  workers : List Worker
  /-- Buffer of `taskChan` (capacity `len(tasks)`, line 53), oldest first. -/
  taskChan : List Task
  taskClosed : Bool
  /-- Buffer of `failChan` (capacity `len(tasks)`, line 54), oldest first. -/
  failChan : List Task
  failClosed : Bool
  /-- Counter of the `sync.WaitGroup` (line 57). -/
  wg : Nat
  /-- Waiter count of the `sync.WaitGroup`: goroutines blocked inside `wg.Wait()`. -/
  wgWaiters : Nat
  /-- Semaphore of the `sync.WaitGroup`: wake-ups released and not yet consumed. -/
  wgSema : Nat
  workerCounter : Nat
  taskRetryMap : Int → Nat
  /-- Lines printed so far, oldest first. -/
  log : List Event
  /-- A goroutine panicked: the process has crashed. -/
  panicked : Bool

/-- State at line 69, before the first worker is started. -/
def init : State where
  mainPC := .startWorkers 1
  recovery := .notStarted
  workers := []
  taskChan := []
  taskClosed := false
  failChan := []
  failClosed := false
  wg := 0
  wgWaiters := 0
  wgSema := 0
  workerCounter := 0
  taskRetryMap := fun _ => 0
  log := []
  panicked := false

/-- Which thread moves; a worker is named by its position in `State.workers`
and is given the verdict it draws if its next statement is the test of line 28. -/
inductive Action where
  | main
  | worker (i : Nat) (v : Verdict)
  | recovery
deriving DecidableEq, Repr

/-- One statement of `main`. -/
def mainStep (cfg : Config) (s : State) : Option State :=
  match s.mainPC with
  | .startWorkers i =>
    if i ≤ cfg.numWorkers then
      -- wg.Add(1); go worker(i, taskChan, &wg, failChan)
      if s.wgWaiters ≠ 0 ∧ s.wg = 0 then some { s with panicked := true }
      else
        some { s with wg := s.wg + 1, workers := s.workers ++ [⟨i, .recv⟩],
                      mainPC := .startWorkers (i + 1) }
    else some { s with mainPC := .distribute 0 }
  | .distribute k =>
    match cfg.tasks.get? k with
    | some task =>
      -- taskRetryMap[task.id] = 0; taskChan <- task (blocks while the buffer is full)
      if s.taskChan.length < cfg.tasks.length then
        some { s with taskRetryMap := Function.update s.taskRetryMap task.id 0,
                      taskChan := s.taskChan ++ [task],
                      mainPC := .distribute (k + 1) }
      else none
    | none => some { s with mainPC := .closeTaskChan }
  | .closeTaskChan => some { s with taskClosed := true, mainPC := .startRecovery }
  | .startRecovery => some { s with recovery := .listening, mainPC := .waitWorkers }
  | .waitWorkers =>
    -- wg.Wait()
    if s.wgSema ≠ 0 then
      -- woken from the semaphore: the counter has to be zero still
      if s.wg = 0 then some { s with wgSema := s.wgSema - 1, mainPC := .closeFailChan }
      else some { s with panicked := true }
    else if s.wgWaiters ≠ 0 then none
    else if s.wg = 0 then some { s with mainPC := .closeFailChan }
    else some { s with wgWaiters := s.wgWaiters + 1 }
  | .closeFailChan => some { s with failClosed := true, mainPC := .printDone }
  | .printDone => some { s with log := s.log ++ [.allTasksCompleted], mainPC := .exited }
  | .exited => none

/-- The worker `w` at position `i` moves to program counter `pc`. -/
def setWorkerPC (s : State) (i : Nat) (w : Worker) (pc : WorkerPC) : State :=
  { s with workers := s.workers.set i { w with pc := pc } }

/-- One statement of the worker `w` standing at position `i` (lines 21-38). -/
def workerStep (cfg : Config) (s : State) (i : Nat) (w : Worker) (v : Verdict) :
    Option State :=
  match w.pc with
  | .recv =>
    match s.taskChan with
    | task :: rest =>
      some { setWorkerPC s i w (.running task) with
             taskChan := rest,
             log := s.log ++ [.workerStarted w.id task.id task.data] }
    | [] => if s.taskClosed then some (setWorkerPC s i w .returning) else none
  | .running task =>
    match v with
    | .failure =>
      some { setWorkerPC s i w (.sending task) with
             log := s.log ++ [.workerFailed w.id task.id] }
    | .success =>
      some { setWorkerPC s i w .recv with
             log := s.log ++ [.workerCompleted w.id task.id] }
  | .sending task =>
    if s.failClosed then some { s with panicked := true }
    else if s.failChan.length < cfg.tasks.length then
      some { setWorkerPC s i w .returning with failChan := s.failChan ++ [task] }
    else none
  | .returning =>
    -- wg.Done(): a negative counter panics; reaching zero wakes the waiters
    if s.wg = 0 then some { s with panicked := true }
    else
      some { setWorkerPC s i w .done with
             wg := s.wg - 1,
             wgWaiters := if s.wg = 1 then 0 else s.wgWaiters,
             wgSema := if s.wg = 1 then s.wgSema + s.wgWaiters else s.wgSema }
  | .done => none

/-- Body of the recovery loop for one received `failedTask` (lines 84-97). -/
def recoveryBody (cfg : Config) (s : State) (failedTask : Task) : State :=
  -- taskRetryMap[failedTask.id]++
  let n := s.taskRetryMap failedTask.id + 1
  let s1 : State := { s with taskRetryMap := Function.update s.taskRetryMap failedTask.id n }
  if s1.taskRetryMap failedTask.id > cfg.maxRetries then
    { s1 with log := s1.log ++ [Event.retryLimitExceeded failedTask.id cfg.maxRetries] }
  else
    let s2 : State := { s1 with
      log := s1.log ++ [Event.reassigning failedTask.id (s1.taskRetryMap failedTask.id)] }
    -- workerCounter = (workerCounter % numWorkers) + 1
    let s3 : State := { s2 with workerCounter := (s2.workerCounter % cfg.numWorkers) + 1 }
    -- wg.Add(1); go worker(workerCounter, taskChan, &wg, failChan)
    if s3.wgWaiters ≠ 0 ∧ s3.wg = 0 then { s3 with panicked := true }
    else
      { s3 with wg := s3.wg + 1,
                workers := s3.workers ++ [Worker.mk s3.workerCounter WorkerPC.recv] }

/-- One iteration of `for failedTask := range failChan` (lines 83-98), taken as
one step: after the receive the body works on the ledger and on `workerCounter`,
which no other thread uses once the goroutine exists, and ends with
`wg.Add(1)` and the `go` statement. -/
def recoveryStep (cfg : Config) (s : State) : Option State :=
  match s.recovery with
  | .notStarted => none
  | .listening =>
    match s.failChan with
    | failedTask :: rest => some (recoveryBody cfg { s with failChan := rest } failedTask)
    | [] => if s.failClosed then some { s with recovery := .finished } else none
  | .finished => none

/-- The step of the whole program: `none` when the chosen thread cannot move.
Nothing moves once the process has ended (by a panic or by `main` returning). -/
def step (cfg : Config) (s : State) (a : Action) : Option State :=
  if s.panicked ∨ s.mainPC = .exited then none
  else
    match a with
    | .main => mainStep cfg s
    | .worker i v =>
      match s.workers.get? i with
      | some w => workerStep cfg s i w v
      | none => none
    | .recovery => recoveryStep cfg s

/-- A schedule step: the chosen thread moves if it can, otherwise nothing happens. -/
def next (cfg : Config) (s : State) (a : Action) : State :=
  (step cfg s a).getD s

/-- The state after a schedule, started at `init`. -/
def exec (cfg : Config) (acts : List Action) : State :=
  acts.foldl (next cfg) init

/-! ## Observations on the printed lines and on the goroutines -/

/-- The event is a "started" line for a task id satisfying `p`. -/
def Event.isStarted (p : Int → Bool) : Event → Bool
  | .workerStarted _ t _ => p t
  | _ => false

/-- The event is a "failed" line for a task id satisfying `p`. -/
def Event.isFailed (p : Int → Bool) : Event → Bool
  | .workerFailed _ t => p t
  | _ => false

/-- The event is a "completed" line for a task id satisfying `p`. -/
def Event.isCompleted (p : Int → Bool) : Event → Bool
  | .workerCompleted _ t => p t
  | _ => false

/-- The event is an "exceeded the retry limit" line for a task id satisfying `p`. -/
def Event.isExceeded (p : Int → Bool) : Event → Bool
  | .retryLimitExceeded t _ => p t
  | _ => false

/-- The event is a "Reassigning" line for a task id satisfying `p`. -/
def Event.isReassigning (p : Int → Bool) : Event → Bool
  | .reassigning t _ => p t
  | _ => false

/-- The event is one of the two lines the recovery loop prints for a failure
report it has taken from `failChan`. -/
def Event.isProcessed (p : Int → Bool) (e : Event) : Bool :=
  e.isExceeded p || e.isReassigning p

/-- Task ids pulled from `taskChan`, in the order of the "started" lines. -/
def pulledIds : List Event → List Int
  | [] => []
  | .workerStarted _ t _ :: log => t :: pulledIds log
  | _ :: log => pulledIds log

/-- Number of attempts on task `id`: the "started" lines for it. -/
def attempts (log : List Event) (id : Int) : Nat :=
  log.countP (Event.isStarted (· == id))

/-- Number of failure reports for task `id` the recovery loop has processed. -/
def reportsProcessed (log : List Event) (id : Int) : Nat :=
  log.countP (Event.isProcessed (· == id))

/-- Number of messages ever sent on `failChan`: those still buffered and those
the recovery loop has taken out. -/
def failSends (s : State) : Nat :=
  s.failChan.length + s.log.countP (Event.isProcessed (fun _ => true))

/-- Task `id` had a successful attempt. -/
def succeeded (log : List Event) (id : Int) : Bool :=
  log.any (Event.isCompleted (· == id))

/-- Task `id` was declared to have exceeded the retry limit. -/
def exhausted (log : List Event) (id : Int) : Bool :=
  log.any (Event.isExceeded (· == id))

/-- Number of terminal events observed: "completed" and "exceeded" lines. -/
def terminalEvents (log : List Event) : Nat :=
  log.countP (Event.isCompleted (fun _ => true)) + log.countP (Event.isExceeded (fun _ => true))

/-- The worker holds a task with id satisfying `p` whose verdict is pending. -/
def Worker.isRunning (p : Int → Bool) (w : Worker) : Bool :=
  match w.pc with
  | .running t => p t.id
  | _ => false

/-- The worker stands at `failChan <- task` with a task id satisfying `p`. -/
def Worker.isSending (p : Int → Bool) (w : Worker) : Bool :=
  match w.pc with
  | .sending t => p t.id
  | _ => false

/-- The goroutine has not ended yet. -/
def Worker.isLive (w : Worker) : Bool :=
  match w.pc with
  | .done => false
  | _ => true

/-- Number of batch tasks `main` has put on `taskChan` when it stands at `pc`. -/
def enqueued (cfg : Config) : MainPC → Nat
  | .startWorkers _ => 0
  | .distribute k => k
  | _ => cfg.tasks.length

/-- The event list a step appended to the log. -/
def emitted (s s' : State) : List Event :=
  s'.log.drop s.log.length

/-- Position of `main` in its sequence of statements. -/
def MainPC.stage : MainPC → Nat
  | .startWorkers _ => 0
  | .distribute _ => 1
  | .closeTaskChan => 2
  | .startRecovery => 3
  | .waitWorkers => 4
  | .closeFailChan => 5
  | .printDone => 6
  | .exited => 7

/-- The recovery goroutine exists exactly from line 82 on, `taskChan` is closed
exactly from line 79 on and `failChan` exactly from line 103 on. -/
def StageInv (s : State) : Prop :=
  (s.recovery = .notStarted ↔ s.mainPC.stage ≤ 3) ∧
  (s.taskClosed = true ↔ 3 ≤ s.mainPC.stage) ∧
  (s.failClosed = true ↔ 6 ≤ s.mainPC.stage)

/-- Before the recovery goroutine exists nothing of it has happened, and at all
times every ledger entry counts the failure reports processed for its id. -/
def LedgerInv (s : State) : Prop :=
  (s.recovery = .notStarted →
    s.workerCounter = 0 ∧
    ∀ p : Int → Bool, s.log.countP (Event.isProcessed p) = 0 ∧
      s.log.countP (Event.isReassigning p) = 0 ∧ s.log.countP (Event.isExceeded p) = 0) ∧
  (∀ id : Int, s.taskRetryMap id = reportsProcessed s.log id)

/-- The channel `taskChan` is first-in first-out and fed only by `main`: the ids pulled so
far, followed by the ids still buffered, are the ids `main` has enqueued. -/
def FifoInv (cfg : Config) (s : State) : Prop :=
  pulledIds s.log ++ s.taskChan.map Task.id =
    (cfg.tasks.take (enqueued cfg s.mainPC)).map Task.id

/-- Every pulled task is accounted for once: its verdict is pending, or it
completed, or it failed; and every failed attempt is at the send statement, or
buffered in `failChan`, or processed by the recovery loop. -/
def AccountInv (s : State) : Prop :=
  ∀ p : Int → Bool,
    s.log.countP (Event.isStarted p) =
      s.log.countP (Event.isFailed p) + s.log.countP (Event.isCompleted p) +
        s.workers.countP (Worker.isRunning p) ∧
    s.log.countP (Event.isFailed p) =
      s.log.countP (Event.isProcessed p) + s.failChan.countP (fun t => p t.id) +
        s.workers.countP (Worker.isSending p)

/-- The WaitGroup counter is the number of worker goroutines that have not ended. -/
def WgInv (s : State) : Prop :=
  s.wg = s.workers.countP Worker.isLive

/-- A goroutine is registered as waiter of the WaitGroup only while the counter
is positive. -/
def WaitInv (s : State) : Prop :=
  s.wgWaiters ≠ 0 → s.wg ≠ 0

/-- The process is running: no goroutine has panicked and `main` has not returned. -/
def State.live (s : State) : Bool :=
  !s.panicked && s.mainPC != .exited

/-- The statements of `main` up to the end of the loop of lines 75-78, for the
batch of five tasks and three workers: four steps of the first loop and six of
the second.  `main` then stands at `close(taskChan)`. -/
def scheduleEnqueued : List Action :=
  List.replicate 10 Action.main

/-- The statements of `main` up to and including `go func()` of line 82:
`scheduleEnqueued`, `close(taskChan)` and the start of the recovery goroutine. -/
def scheduleRecoveryStarted : List Action :=
  scheduleEnqueued ++ [.main, .main]

/-- After `scheduleRecoveryStarted` the first worker pulls task 1. -/
def scheduleTaskPulled : List Action :=
  scheduleRecoveryStarted ++ [.worker 0 .failure]

/-- A schedule of `mainConfig` in which the first worker fails on task 1, the
recovery loop processes the report, the second worker completes tasks 2 to 5,
all workers end and `main` runs to its end. -/
def scheduleOneFailure : List Action :=
  scheduleRecoveryStarted ++
  [.worker 0 .failure, .worker 0 .failure, .worker 0 .failure, .worker 0 .failure,
   .recovery,
   .worker 1 .success, .worker 1 .success, .worker 1 .success, .worker 1 .success,
   .worker 1 .success, .worker 1 .success, .worker 1 .success, .worker 1 .success,
   .worker 1 .success, .worker 1 .success,
   .worker 2 .success, .worker 2 .success, .worker 3 .success, .worker 3 .success,
   .main, .main, .main]

/-- The part of `scheduleOneFailure` that ends when the report for task 1 lies in `failChan`. -/
def scheduleFailureReported : List Action :=
  scheduleRecoveryStarted ++
  [.worker 0 .failure, .worker 0 .failure, .worker 0 .failure, .worker 0 .failure]

/-- A schedule of `mainConfig` in which the three initial workers fail on tasks
1, 2, 3 and end before the recovery loop has run, `wg.Wait()` returns and
`failChan` is closed; then the recovery loop takes the buffered report for
task 1 and starts a replacement, which pulls task 4, fails and sends on the
closed `failChan`. -/
def schedulePanic : List Action :=
  scheduleRecoveryStarted ++
  [.worker 0 .failure, .worker 0 .failure, .worker 0 .failure, .worker 0 .failure,
   .worker 1 .failure, .worker 1 .failure, .worker 1 .failure, .worker 1 .failure,
   .worker 2 .failure, .worker 2 .failure, .worker 2 .failure, .worker 2 .failure,
   .main, .main, .recovery,
   .worker 3 .failure, .worker 3 .failure, .worker 3 .failure]

/-- The schedule `schedulePanic` without its last action: the replacement worker
has failed on task 4 and stands at `failChan <- task`, `failChan` being closed. -/
def scheduleSendOnClosed : List Action :=
  scheduleRecoveryStarted ++
  [.worker 0 .failure, .worker 0 .failure, .worker 0 .failure, .worker 0 .failure,
   .worker 1 .failure, .worker 1 .failure, .worker 1 .failure, .worker 1 .failure,
   .worker 2 .failure, .worker 2 .failure, .worker 2 .failure, .worker 2 .failure,
   .main, .main, .recovery,
   .worker 3 .failure, .worker 3 .failure]

/-- A schedule of `mainConfig` in which `main` enters `wg.Wait()` while the three
initial workers are alive and blocks; the workers fail on tasks 1, 2, 3 and
end, the last `wg.Done()` wakes `main`; before `main` runs, the recovery loop
takes the report for task 1 and executes `wg.Add(1)`; then `main` resumes
inside `wg.Wait()`. -/
def scheduleWaitReused : List Action :=
  scheduleRecoveryStarted ++
  [.main,
   .worker 0 .failure, .worker 0 .failure, .worker 0 .failure, .worker 0 .failure,
   .worker 1 .failure, .worker 1 .failure, .worker 1 .failure, .worker 1 .failure,
   .worker 2 .failure, .worker 2 .failure, .worker 2 .failure, .worker 2 .failure,
   .recovery, .main]

/-- Scenario B of the specification: one task, one worker, no retry allowed. -/
def scenarioB : Config where
  tasks := [⟨1, "Task 1", 0⟩]
  numWorkers := 1
  maxRetries := 0

/-- A schedule of `scenarioB` that ends when the report of the failed first
attempt lies in `failChan`. -/
def scheduleScenarioB : List Action :=
  List.replicate 6 Action.main ++
  [.worker 0 .failure, .worker 0 .failure, .worker 0 .failure]

/-! ## A bound on the length of the runs -/

/-- Steps a worker at `pc` can still take by itself, counting what it may still
put on `failChan`. -/
def WorkerPC.weight : WorkerPC → Nat
  | .recv => 2
  | .running _ => 6
  | .sending _ => 5
  | .returning => 1
  | .done => 0

/-- Steps `main` can still take from `pc`, counting the workers it will start
and the tasks it will enqueue. -/
def MainPC.weight (cfg : Config) : MainPC → Nat
  | .startWorkers i => 3 * (cfg.numWorkers + 1 - i) + 7 * cfg.tasks.length + 9
  | .distribute k => 7 * (cfg.tasks.length - k) + 8
  | .closeTaskChan => 7
  | .startRecovery => 6
  | .waitWorkers => 4
  | .closeFailChan => 2
  | .printDone => 1
  | .exited => 0

/-- Steps the recovery goroutine can still take apart from processing reports. -/
def RecoveryPC.weight : RecoveryPC → Nat
  | .notStarted => 1
  | .listening => 1
  | .finished => 0

/-- A number that every step makes smaller. -/
def potential (cfg : Config) (s : State) : Nat :=
  MainPC.weight cfg s.mainPC + RecoveryPC.weight s.recovery +
    (s.workers.map (fun w => WorkerPC.weight w.pc)).sum +
    5 * s.taskChan.length + 3 * s.failChan.length + (if s.panicked then 0 else 2) +
    (if s.wgWaiters = 0 ∧ s.wgSema = 0 then 1 else 0)

/-- Number of actions of a schedule, started at `s`, whose thread could move. -/
def effectiveSteps (cfg : Config) : State → List Action → Nat
  | _, [] => 0
  | s, a :: acts =>
    match step cfg s a with
    | some s' => effectiveSteps cfg s' acts + 1
    | none => effectiveSteps cfg s acts
set_option maxRecDepth 100000


/-! ## How a step changes the state -/

theorem recoveryBody_exceeded (cfg : Config) (s : State) (t : Task)
    (h : s.taskRetryMap t.id + 1 > cfg.maxRetries) :
    recoveryBody cfg s t =
      { s with taskRetryMap := Function.update s.taskRetryMap t.id (s.taskRetryMap t.id + 1),
               log := s.log ++ [Event.retryLimitExceeded t.id cfg.maxRetries] } := by
  simp [recoveryBody, h]

theorem recoveryBody_reassign (cfg : Config) (s : State) (t : Task)
    (h : ¬ s.taskRetryMap t.id + 1 > cfg.maxRetries) (hwg : ¬ (s.wgWaiters ≠ 0 ∧ s.wg = 0)) :
    recoveryBody cfg s t =
      { s with taskRetryMap := Function.update s.taskRetryMap t.id (s.taskRetryMap t.id + 1),
               log := s.log ++ [Event.reassigning t.id (s.taskRetryMap t.id + 1)],
               workerCounter := s.workerCounter % cfg.numWorkers + 1,
               wg := s.wg + 1,
               workers := s.workers ++
                 [Worker.mk (s.workerCounter % cfg.numWorkers + 1) WorkerPC.recv] } := by
  simp only [recoveryBody, Function.update_same, h, if_false, hwg]

theorem recoveryBody_misuse (cfg : Config) (s : State) (t : Task)
    (h : ¬ s.taskRetryMap t.id + 1 > cfg.maxRetries) (hwg : s.wgWaiters ≠ 0 ∧ s.wg = 0) :
    recoveryBody cfg s t =
      { s with taskRetryMap := Function.update s.taskRetryMap t.id (s.taskRetryMap t.id + 1),
               log := s.log ++ [Event.reassigning t.id (s.taskRetryMap t.id + 1)],
               workerCounter := s.workerCounter % cfg.numWorkers + 1,
               panicked := true } := by
  simp only [recoveryBody, Function.update_same, h, if_false, hwg, ne_eq, not_false_eq_true,
    and_self, if_true]

/-- Case analysis of `step`: a property of all steps follows from its instances
at each statement of each thread. -/
theorem step_cases (cfg : Config) (P : State → Action → State → Prop)
    (spawnMisuse : ∀ (s : State) (i : Nat), s.mainPC = .startWorkers i → i ≤ cfg.numWorkers →
      (s.wgWaiters ≠ 0 ∧ s.wg = 0) → P s .main { s with panicked := true })
    (spawn : ∀ (s : State) (i : Nat), s.mainPC = .startWorkers i → i ≤ cfg.numWorkers →
      P s .main { s with wg := s.wg + 1, workers := s.workers ++ [Worker.mk i WorkerPC.recv],
                         mainPC := .startWorkers (i + 1) })
    (spawnEnd : ∀ (s : State) (i : Nat), s.mainPC = .startWorkers i → ¬ i ≤ cfg.numWorkers →
      P s .main { s with mainPC := .distribute 0 })
    (enqueue : ∀ (s : State) (k : Nat) (task : Task), s.mainPC = .distribute k → cfg.tasks.get? k = some task →
      s.taskChan.length < cfg.tasks.length →
      P s .main { s with taskRetryMap := Function.update s.taskRetryMap task.id 0,
                         taskChan := s.taskChan ++ [task], mainPC := .distribute (k + 1) })
    (enqueueEnd : ∀ (s : State) (k : Nat), s.mainPC = .distribute k → cfg.tasks.get? k = none →
      P s .main { s with mainPC := .closeTaskChan })
    (closeTask : ∀ (s : State), s.mainPC = .closeTaskChan →
      P s .main { s with taskClosed := true, mainPC := .startRecovery })
    (startRecovery : ∀ (s : State), s.mainPC = .startRecovery →
      P s .main { s with recovery := .listening, mainPC := .waitWorkers })
    (waitWake : ∀ (s : State), s.mainPC = .waitWorkers → s.wgSema ≠ 0 → s.wg = 0 →
      P s .main { s with wgSema := s.wgSema - 1, mainPC := .closeFailChan })
    (waitReused : ∀ (s : State), s.mainPC = .waitWorkers → s.wgSema ≠ 0 → s.wg ≠ 0 →
      P s .main { s with panicked := true })
    (wait : ∀ (s : State), s.mainPC = .waitWorkers → s.wgSema = 0 → s.wgWaiters = 0 →
      s.wg = 0 → P s .main { s with mainPC := .closeFailChan })
    (waitRegister : ∀ (s : State), s.mainPC = .waitWorkers → s.wgSema = 0 →
      s.wgWaiters = 0 → s.wg ≠ 0 → P s .main { s with wgWaiters := s.wgWaiters + 1 })
    (closeFail : ∀ (s : State), s.mainPC = .closeFailChan →
      P s .main { s with failClosed := true, mainPC := .printDone })
    (printDone : ∀ (s : State), s.mainPC = .printDone →
      P s .main { s with log := s.log ++ [Event.allTasksCompleted], mainPC := .exited })
    (pull : ∀ (s : State) (i : Nat) (w : Worker) (v : Verdict) (task : Task) (rest : List Task), s.workers.get? i = some w → w.pc = .recv →
      s.taskChan = task :: rest →
      P s (.worker i v) { setWorkerPC s i w (.running task) with
        taskChan := rest, log := s.log ++ [Event.workerStarted w.id task.id task.data] })
    (drained : ∀ (s : State) (i : Nat) (w : Worker) (v : Verdict), s.workers.get? i = some w → w.pc = .recv →
      s.taskChan = [] → s.taskClosed = true →
      P s (.worker i v) (setWorkerPC s i w .returning))
    (fail : ∀ (s : State) (i : Nat) (w : Worker) (task : Task), s.workers.get? i = some w → w.pc = .running task →
      P s (.worker i .failure) { setWorkerPC s i w (.sending task) with
        log := s.log ++ [Event.workerFailed w.id task.id] })
    (succeed : ∀ (s : State) (i : Nat) (w : Worker) (task : Task), s.workers.get? i = some w → w.pc = .running task →
      P s (.worker i .success) { setWorkerPC s i w .recv with
        log := s.log ++ [Event.workerCompleted w.id task.id] })
    (sendClosed : ∀ (s : State) (i : Nat) (w : Worker) (v : Verdict) (task : Task), s.workers.get? i = some w → w.pc = .sending task →
      s.failClosed = true → P s (.worker i v) { s with panicked := true })
    (send : ∀ (s : State) (i : Nat) (w : Worker) (v : Verdict) (task : Task), s.workers.get? i = some w → w.pc = .sending task →
      s.failClosed = false → s.failChan.length < cfg.tasks.length →
      P s (.worker i v) { setWorkerPC s i w .returning with failChan := s.failChan ++ [task] })
    (doneNegative : ∀ (s : State) (i : Nat) (w : Worker) (v : Verdict), s.workers.get? i = some w → w.pc = .returning →
      s.wg = 0 → P s (.worker i v) { s with panicked := true })
    (done : ∀ (s : State) (i : Nat) (w : Worker) (v : Verdict), s.workers.get? i = some w → w.pc = .returning → s.wg ≠ 0 →
      P s (.worker i v) { setWorkerPC s i w .done with
        wg := s.wg - 1,
        wgWaiters := if s.wg = 1 then 0 else s.wgWaiters,
        wgSema := if s.wg = 1 then s.wgSema + s.wgWaiters else s.wgSema })
    (exceed : ∀ (s : State) (t : Task) (rest : List Task), s.recovery = .listening → s.failChan = t :: rest →
      s.taskRetryMap t.id + 1 > cfg.maxRetries →
      P s .recovery
        { s with failChan := rest,
                 taskRetryMap := Function.update s.taskRetryMap t.id (s.taskRetryMap t.id + 1),
                 log := s.log ++ [Event.retryLimitExceeded t.id cfg.maxRetries] })
    (reassignMisuse : ∀ (s : State) (t : Task) (rest : List Task), s.recovery = .listening →
      s.failChan = t :: rest → ¬ s.taskRetryMap t.id + 1 > cfg.maxRetries →
      (s.wgWaiters ≠ 0 ∧ s.wg = 0) →
      P s .recovery
        { s with failChan := rest,
                 taskRetryMap := Function.update s.taskRetryMap t.id (s.taskRetryMap t.id + 1),
                 log := s.log ++ [Event.reassigning t.id (s.taskRetryMap t.id + 1)],
                 workerCounter := s.workerCounter % cfg.numWorkers + 1,
                 panicked := true })
    (reassign : ∀ (s : State) (t : Task) (rest : List Task), s.recovery = .listening → s.failChan = t :: rest →
      ¬ s.taskRetryMap t.id + 1 > cfg.maxRetries → ¬ (s.wgWaiters ≠ 0 ∧ s.wg = 0) →
      P s .recovery
        { s with failChan := rest,
                 taskRetryMap := Function.update s.taskRetryMap t.id (s.taskRetryMap t.id + 1),
                 log := s.log ++ [Event.reassigning t.id (s.taskRetryMap t.id + 1)],
                 workerCounter := s.workerCounter % cfg.numWorkers + 1,
                 wg := s.wg + 1,
                 workers := s.workers ++
                   [Worker.mk (s.workerCounter % cfg.numWorkers + 1) WorkerPC.recv] })
    (recoveryEnd : ∀ (s : State), s.recovery = .listening → s.failChan = [] → s.failClosed = true →
      P s .recovery { s with recovery := .finished }) :
    ∀ (s : State) (a : Action) (s' : State), step cfg s a = some s' → P s a s' := by
  intro s a s' h
  unfold step at h
  split at h
  · simp at h
  · cases a with
    | main =>
      simp only [mainStep] at h
      split at h
      · rename_i i hpc
        split at h
        · rename_i hi
          split at h
          · rename_i hm
            cases h; exact spawnMisuse s i hpc hi hm
          · rename_i hm
            cases h; exact spawn s i hpc hi
        · rename_i hi
          cases h; exact spawnEnd s i hpc hi
      · rename_i k hpc
        split at h
        · rename_i task htask
          split at h
          · rename_i hlen
            cases h; exact enqueue s k task hpc htask hlen
          · simp at h
        · rename_i htask
          cases h; exact enqueueEnd s k hpc htask
      · rename_i hpc; cases h; exact closeTask s hpc
      · rename_i hpc; cases h; exact startRecovery s hpc
      · rename_i hpc
        split at h
        · rename_i hsema
          split at h
          · rename_i hwg; cases h; exact waitWake s hpc hsema hwg
          · rename_i hwg; cases h; exact waitReused s hpc hsema hwg
        · rename_i hsema
          split at h
          · simp at h
          · rename_i hw
            split at h
            · rename_i hwg
              cases h
              exact wait s hpc (by simpa using hsema) (by simpa using hw) hwg
            · rename_i hwg
              cases h
              exact waitRegister s hpc (by simpa using hsema) (by simpa using hw) hwg
      · rename_i hpc; cases h; exact closeFail s hpc
      · rename_i hpc; cases h; exact printDone s hpc
      · simp at h
    | worker i v =>
      simp only at h
      split at h
      · rename_i w hw
        simp only [workerStep] at h
        split at h
        · rename_i hpc
          split at h
          · rename_i task rest hchan
            cases h; exact pull s i w v task rest hw hpc hchan
          · rename_i hchan
            split at h
            · rename_i hcl; cases h; exact drained s i w v hw hpc hchan hcl
            · simp at h
        · rename_i task hpc
          split at h
          · cases h; exact fail s i w task hw hpc
          · cases h; exact succeed s i w task hw hpc
        · rename_i task hpc
          split at h
          · rename_i hcl; cases h; exact sendClosed s i w v task hw hpc hcl
          · rename_i hcl
            split at h
            · rename_i hlen
              cases h; exact send s i w v task hw hpc (by simpa using hcl) hlen
            · simp at h
        · rename_i hpc
          split at h
          · rename_i hwg; cases h; exact doneNegative s i w v hw hpc hwg
          · rename_i hwg; cases h; exact done s i w v hw hpc hwg
        · simp at h
      · simp at h
    | recovery =>
      simp only [recoveryStep] at h
      split at h
      · simp at h
      · rename_i hpc
        split at h
        · rename_i t rest hchan
          cases h
          by_cases hlim : s.taskRetryMap t.id + 1 > cfg.maxRetries
          · have e := recoveryBody_exceeded cfg { s with failChan := rest } t hlim
            rw [e]
            exact exceed s t rest hpc hchan hlim
          · by_cases hm : s.wgWaiters ≠ 0 ∧ s.wg = 0
            · have e := recoveryBody_misuse cfg { s with failChan := rest } t hlim hm
              rw [e]
              exact reassignMisuse s t rest hpc hchan hlim hm
            · have e := recoveryBody_reassign cfg { s with failChan := rest } t hlim hm
              rw [e]
              exact reassign s t rest hpc hchan hlim hm
        · rename_i hchan
          split at h
          · rename_i hcl; cases h; exact recoveryEnd s hpc hchan hcl
          · simp at h
      · simp at h


/-! ## Runs -/

theorem exec_snoc (cfg : Config) (acts : List Action) (a : Action) :
    exec cfg (acts ++ [a]) = next cfg (exec cfg acts) a := by
  simp [exec, List.foldl_append]

/-- A property that holds initially and is kept by every step holds after every schedule. -/
theorem exec_invariant (cfg : Config) (I : State → Prop) (h0 : I init)
    (hstep : ∀ (s : State) (a : Action) (s' : State), step cfg s a = some s' → I s → I s') :
    ∀ acts : List Action, I (exec cfg acts) := by
  intro acts
  induction acts using List.reverseRecOn with
  | nil => exact h0
  | append_singleton l a ih =>
    rw [exec_snoc]
    unfold next
    cases h : step cfg (exec cfg l) a with
    | none => exact ih
    | some s' => exact hstep _ a s' h ih

/-! ## Order of the statements of `main` -/

theorem stageInv_step (cfg : Config) :
    ∀ (s : State) (a : Action) (s' : State), step cfg s a = some s' → StageInv s → StageInv s' := by
  apply step_cases cfg (fun s _ s' => StageInv s → StageInv s')
  all_goals intros
  all_goals simp_all [StageInv, MainPC.stage, setWorkerPC]

theorem stageInv_exec (cfg : Config) (acts : List Action) : StageInv (exec cfg acts) :=
  exec_invariant cfg StageInv (by simp [StageInv, init, MainPC.stage]) (stageInv_step cfg) acts
theorem ledgerInv_step (cfg : Config) :
    ∀ (s : State) (a : Action) (s' : State), step cfg s a = some s' →
      StageInv s → LedgerInv s → LedgerInv s' := by
  apply step_cases cfg (fun s _ s' => StageInv s → LedgerInv s → LedgerInv s')
  case enqueue =>
    intro s k task hpc _ _ hst hI
    have hr : s.recovery = .notStarted := hst.1.2 (by simp [hpc, MainPC.stage])
    obtain ⟨hq, hl⟩ := hI
    refine ⟨fun _ => hq hr, fun id => ?_⟩
    have h0 := hl task.id
    have hz := ((hq hr).2 (· == task.id)).1
    simp only [reportsProcessed] at h0 hl ⊢
    by_cases hid : id = task.id
    · subst hid; simp [hz]
    · simp [Function.update_apply, hid, hl]
  case startRecovery =>
    intro s hpc hst hI
    exact ⟨fun h => by simp at h, hI.2⟩
  case recoveryEnd =>
    intro s hpc _ _ hst hI
    exact ⟨fun h => by simp at h, hI.2⟩
  case exceed =>
    intro s t rest hpc _ _ hst hI
    refine ⟨fun h => by simp [hpc] at h, fun id => ?_⟩
    have hl := hI.2
    simp only [reportsProcessed] at hl ⊢
    by_cases hid : id = t.id
    · subst hid
      simp [List.countP_append, Event.isProcessed, Event.isExceeded, Event.isReassigning, hl]
    · have hid' : ¬ t.id = id := fun h => hid h.symm
      simp [List.countP_append, Event.isProcessed, Event.isExceeded, Event.isReassigning, hl,
        Function.update_apply, hid, hid']
  case reassign =>
    intro s t rest hpc _ _ _ hst hI
    refine ⟨fun h => by simp [hpc] at h, fun id => ?_⟩
    have hl := hI.2
    simp only [reportsProcessed] at hl ⊢
    by_cases hid : id = t.id
    · subst hid
      simp [List.countP_append, Event.isProcessed, Event.isExceeded, Event.isReassigning, hl]
    · have hid' : ¬ t.id = id := fun h => hid h.symm
      simp [List.countP_append, Event.isProcessed, Event.isExceeded, Event.isReassigning, hl,
        Function.update_apply, hid, hid']
  case reassignMisuse =>
    intro s t rest hpc _ _ _ hst hI
    refine ⟨fun h => by simp [hpc] at h, fun id => ?_⟩
    have hl := hI.2
    simp only [reportsProcessed] at hl ⊢
    by_cases hid : id = t.id
    · subst hid
      simp [List.countP_append, Event.isProcessed, Event.isExceeded, Event.isReassigning, hl]
    · have hid' : ¬ t.id = id := fun h => hid h.symm
      simp [List.countP_append, Event.isProcessed, Event.isExceeded, Event.isReassigning, hl,
        Function.update_apply, hid, hid']
  all_goals
    intros
    rename_i hst hI
    simpa [LedgerInv, setWorkerPC, reportsProcessed, List.countP_append, Event.isProcessed,
      Event.isExceeded, Event.isReassigning] using hI

theorem ledgerInv_exec (cfg : Config) (acts : List Action) : LedgerInv (exec cfg acts) :=
  (exec_invariant cfg (fun s => StageInv s ∧ LedgerInv s)
    ⟨by simp [StageInv, init, MainPC.stage], by simp [LedgerInv, init, reportsProcessed]⟩
    (fun s a s' h hI => ⟨stageInv_step cfg s a s' h hI.1, ledgerInv_step cfg s a s' h hI.1 hI.2⟩)
    acts).2

/-! ## Lists of workers and of events -/

theorem countP_set_of_get? {α : Type} (q : α → Bool) (l : List α) (i : Nat) (w w' : α)
    (h : l.get? i = some w) :
    (l.set i w').countP q + (if q w then 1 else 0) = l.countP q + (if q w' then 1 else 0) := by
  induction l generalizing i with
  | nil => simp at h
  | cons x l ih =>
    cases i with
    | zero =>
      simp at h
      subst h
      simp [List.countP_cons]
      omega
    | succ i =>
      have := ih i (by simpa using h)
      simp [List.countP_cons]
      omega

theorem pulledIds_append (l₁ l₂ : List Event) :
    pulledIds (l₁ ++ l₂) = pulledIds l₁ ++ pulledIds l₂ := by
  induction l₁ with
  | nil => simp [pulledIds]
  | cons e l ih => cases e <;> simp [pulledIds, ih]

theorem attempts_eq_count (log : List Event) (id : Int) :
    attempts log id = (pulledIds log).count id := by
  induction log with
  | nil => simp [attempts, pulledIds]
  | cons e l ih =>
    unfold attempts at ih ⊢
    cases e <;> simp [pulledIds, List.countP_cons, Event.isStarted, List.count_cons, ih]

theorem countP_isStarted_le_length (log : List Event) (p : Int → Bool) :
    log.countP (Event.isStarted p) ≤ (pulledIds log).length := by
  induction log with
  | nil => simp [pulledIds]
  | cons e l ih =>
    cases e <;> simp [pulledIds, List.countP_cons, Event.isStarted] <;> try omega
    split <;> omega

/-! ## `taskChan` is first-in first-out -/

theorem fifoInv_step (cfg : Config) :
    ∀ (s : State) (a : Action) (s' : State), step cfg s a = some s' →
      FifoInv cfg s → FifoInv cfg s' := by
  apply step_cases cfg (fun s _ s' => FifoInv cfg s → FifoInv cfg s')
  case spawn =>
    intro s i hpc _ hI
    simpa [FifoInv, hpc, enqueued] using hI
  case spawnEnd =>
    intro s i hpc _ hI
    simpa [FifoInv, hpc, enqueued] using hI
  case enqueue =>
    intro s k task hpc htask _ hI
    simp only [FifoInv, hpc, enqueued] at hI ⊢
    have htask' : cfg.tasks[k]? = some task := by simpa using htask
    rw [List.take_succ, htask']
    simp [← hI]
  case enqueueEnd =>
    intro s k hpc htask hI
    simp only [FifoInv, hpc, enqueued] at hI ⊢
    have hlen : cfg.tasks.length ≤ k := by simpa using htask
    rw [List.take_of_length_le hlen] at hI
    simpa using hI
  case closeTask =>
    intro s hpc hI
    simpa [FifoInv, hpc, enqueued] using hI
  case startRecovery =>
    intro s hpc hI
    simpa [FifoInv, hpc, enqueued] using hI
  case wait =>
    intro s hpc _ _ _ hI
    simpa [FifoInv, hpc, enqueued] using hI
  case waitWake =>
    intro s hpc _ _ hI
    simpa [FifoInv, hpc, enqueued] using hI
  case closeFail =>
    intro s hpc hI
    simpa [FifoInv, hpc, enqueued] using hI
  case printDone =>
    intro s hpc hI
    simpa [FifoInv, hpc, enqueued, pulledIds_append, pulledIds] using hI
  case pull =>
    intro s i w v task rest _ _ hchan hI
    simp only [FifoInv, hchan] at hI
    simpa [FifoInv, setWorkerPC, pulledIds_append, pulledIds] using hI
  all_goals
    intros
    rename_i hI
    simpa [FifoInv, setWorkerPC, pulledIds_append, pulledIds] using hI

theorem fifoInv_exec (cfg : Config) (acts : List Action) : FifoInv cfg (exec cfg acts) :=
  exec_invariant cfg (FifoInv cfg) (by simp [FifoInv, init, pulledIds, enqueued])
    (fifoInv_step cfg) acts

/-! ## Every pulled task and every failed attempt is accounted for -/

theorem accountInv_step (cfg : Config) :
    ∀ (s : State) (a : Action) (s' : State), step cfg s a = some s' →
      AccountInv s → AccountInv s' := by
  apply step_cases cfg (fun s _ s' => AccountInv s → AccountInv s')
  case pull =>
    intro s i w v task rest hw hpc hchan hI p
    have h1 := countP_set_of_get? (Worker.isRunning p) s.workers i w
      { w with pc := .running task } hw
    have h2 := countP_set_of_get? (Worker.isSending p) s.workers i w
      { w with pc := .running task } hw
    have hp := hI p
    simp only [Worker.isRunning, Worker.isSending, hpc] at h1 h2
    by_cases hpt : p task.id = true <;>
      simp [setWorkerPC, List.countP_append, List.countP_cons, Event.isStarted, Event.isFailed,
        Event.isCompleted, Event.isProcessed, Event.isExceeded, Event.isReassigning, Worker.isRunning,
        Worker.isSending, hpt]
        at h1 h2 hp ⊢ <;>
      omega
  case drained =>
    intro s i w v hw hpc _ _ hI p
    have h1 := countP_set_of_get? (Worker.isRunning p) s.workers i w
      { w with pc := .returning } hw
    have h2 := countP_set_of_get? (Worker.isSending p) s.workers i w
      { w with pc := .returning } hw
    have hp := hI p
    simp only [Worker.isRunning, Worker.isSending, hpc] at h1 h2
    simp [setWorkerPC, List.countP_append, List.countP_cons, Event.isStarted, Event.isFailed,
        Event.isCompleted, Event.isProcessed, Event.isExceeded, Event.isReassigning, Worker.isRunning,
        Worker.isSending]
      at h1 h2 hp ⊢
    omega
  case fail =>
    intro s i w task hw hpc hI p
    have h1 := countP_set_of_get? (Worker.isRunning p) s.workers i w
      { w with pc := .sending task } hw
    have h2 := countP_set_of_get? (Worker.isSending p) s.workers i w
      { w with pc := .sending task } hw
    have hp := hI p
    simp only [Worker.isRunning, Worker.isSending, hpc] at h1 h2
    by_cases hpt : p task.id = true <;>
      simp [setWorkerPC, List.countP_append, List.countP_cons, Event.isStarted, Event.isFailed,
        Event.isCompleted, Event.isProcessed, Event.isExceeded, Event.isReassigning, Worker.isRunning,
        Worker.isSending, hpt]
        at h1 h2 hp ⊢ <;>
      omega
  case succeed =>
    intro s i w task hw hpc hI p
    have h1 := countP_set_of_get? (Worker.isRunning p) s.workers i w
      { w with pc := .recv } hw
    have h2 := countP_set_of_get? (Worker.isSending p) s.workers i w
      { w with pc := .recv } hw
    have hp := hI p
    simp only [Worker.isRunning, Worker.isSending, hpc] at h1 h2
    by_cases hpt : p task.id = true <;>
      simp [setWorkerPC, List.countP_append, List.countP_cons, Event.isStarted, Event.isFailed,
        Event.isCompleted, Event.isProcessed, Event.isExceeded, Event.isReassigning, Worker.isRunning,
        Worker.isSending, hpt]
        at h1 h2 hp ⊢ <;>
      omega
  case send =>
    intro s i w v task hw hpc _ _ hI p
    have h1 := countP_set_of_get? (Worker.isRunning p) s.workers i w
      { w with pc := .returning } hw
    have h2 := countP_set_of_get? (Worker.isSending p) s.workers i w
      { w with pc := .returning } hw
    have hp := hI p
    simp only [Worker.isRunning, Worker.isSending, hpc] at h1 h2
    by_cases hpt : p task.id = true <;>
      simp [setWorkerPC, List.countP_append, List.countP_cons, Event.isStarted, Event.isFailed,
        Event.isCompleted, Event.isProcessed, Event.isExceeded, Event.isReassigning, Worker.isRunning,
        Worker.isSending, hpt]
        at h1 h2 hp ⊢ <;>
      omega
  case done =>
    intro s i w v hw hpc _ hI p
    have h1 := countP_set_of_get? (Worker.isRunning p) s.workers i w
      { w with pc := .done } hw
    have h2 := countP_set_of_get? (Worker.isSending p) s.workers i w
      { w with pc := .done } hw
    have hp := hI p
    simp only [Worker.isRunning, Worker.isSending, hpc] at h1 h2
    simp [setWorkerPC, List.countP_append, List.countP_cons, Event.isStarted, Event.isFailed,
        Event.isCompleted, Event.isProcessed, Event.isExceeded, Event.isReassigning, Worker.isRunning,
        Worker.isSending]
      at h1 h2 hp ⊢
    omega
  case exceed =>
    intro s t rest _ hchan _ hI p
    have hp := hI p
    simp only [hchan] at hp
    by_cases hpt : p t.id = true <;>
      simp [setWorkerPC, List.countP_append, List.countP_cons, Event.isStarted, Event.isFailed,
        Event.isCompleted, Event.isProcessed, Event.isExceeded, Event.isReassigning, Worker.isRunning,
        Worker.isSending, hpt]
        at hp ⊢ <;>
      omega
  case reassign =>
    intro s t rest _ hchan _ _ hI p
    have hp := hI p
    simp only [hchan] at hp
    by_cases hpt : p t.id = true <;>
      simp [setWorkerPC, List.countP_append, List.countP_cons, Event.isStarted, Event.isFailed,
        Event.isCompleted, Event.isProcessed, Event.isExceeded, Event.isReassigning, Worker.isRunning,
        Worker.isSending, hpt]
        at hp ⊢ <;>
      omega
  case reassignMisuse =>
    intro s t rest _ hchan _ _ hI p
    have hp := hI p
    simp only [hchan] at hp
    by_cases hpt : p t.id = true <;>
      simp [setWorkerPC, List.countP_append, List.countP_cons, Event.isStarted, Event.isFailed,
        Event.isCompleted, Event.isProcessed, Event.isExceeded, Event.isReassigning, Worker.isRunning,
        Worker.isSending, hpt]
        at hp ⊢ <;>
      omega
  all_goals
    intros
    rename_i hI
    intro p
    have hp := hI p
    simp [setWorkerPC, List.countP_append, List.countP_cons, Event.isStarted, Event.isFailed,
        Event.isCompleted, Event.isProcessed, Event.isExceeded, Event.isReassigning, Worker.isRunning,
        Worker.isSending]
      at hp ⊢
    omega

theorem accountInv_exec (cfg : Config) (acts : List Action) : AccountInv (exec cfg acts) :=
  exec_invariant cfg AccountInv (by simp [AccountInv, init]) (accountInv_step cfg) acts

/-! ## The WaitGroup counter -/

theorem wgInv_step (cfg : Config) :
    ∀ (s : State) (a : Action) (s' : State), step cfg s a = some s' → WgInv s → WgInv s' := by
  apply step_cases cfg (fun s _ s' => WgInv s → WgInv s')
  case pull =>
    intro s i w v task rest hw hpc _ hI
    have h1 := countP_set_of_get? Worker.isLive s.workers i w
      { w with pc := .running task } hw
    simp only [Worker.isLive, hpc] at h1
    simp [WgInv, setWorkerPC] at h1 hI ⊢
    omega
  case drained =>
    intro s i w v hw hpc _ _ hI
    have h1 := countP_set_of_get? Worker.isLive s.workers i w
      { w with pc := .returning } hw
    simp only [Worker.isLive, hpc] at h1
    simp [WgInv, setWorkerPC] at h1 hI ⊢
    omega
  case fail =>
    intro s i w task hw hpc hI
    have h1 := countP_set_of_get? Worker.isLive s.workers i w
      { w with pc := .sending task } hw
    simp only [Worker.isLive, hpc] at h1
    simp [WgInv, setWorkerPC] at h1 hI ⊢
    omega
  case succeed =>
    intro s i w task hw hpc hI
    have h1 := countP_set_of_get? Worker.isLive s.workers i w
      { w with pc := .recv } hw
    simp only [Worker.isLive, hpc] at h1
    simp [WgInv, setWorkerPC] at h1 hI ⊢
    omega
  case send =>
    intro s i w v task hw hpc _ _ hI
    have h1 := countP_set_of_get? Worker.isLive s.workers i w
      { w with pc := .returning } hw
    simp only [Worker.isLive, hpc] at h1
    simp [WgInv, setWorkerPC] at h1 hI ⊢
    omega
  case done =>
    intro s i w v hw hpc hwg hI
    have h1 := countP_set_of_get? Worker.isLive s.workers i w
      { w with pc := .done } hw
    simp only [Worker.isLive, hpc] at h1
    simp [WgInv, setWorkerPC] at h1 hI ⊢
    omega
  all_goals
    intros
    rename_i hI
    simp [WgInv, List.countP_append, List.countP_cons, Worker.isLive] at hI ⊢
    try omega

theorem wgInv_exec (cfg : Config) (acts : List Action) : WgInv (exec cfg acts) :=
  exec_invariant cfg WgInv (by simp [WgInv, init]) (wgInv_step cfg) acts

/-! ## Waiters of the WaitGroup -/

theorem waitInv_step (cfg : Config) :
    ∀ (s : State) (a : Action) (s' : State), step cfg s a = some s' → WaitInv s → WaitInv s' := by
  apply step_cases cfg (fun s _ s' => WaitInv s → WaitInv s')
  case done =>
    intro s i w v _ _ hwg hI
    unfold WaitInv at hI ⊢
    simp only [setWorkerPC]
    intro hw
    by_cases h1 : s.wg = 1
    · simp [h1] at hw
    · simp only [h1, if_false] at hw
      omega
  all_goals
    intros
    rename_i hI
    unfold WaitInv at hI ⊢
    simp [setWorkerPC] at hI ⊢
    try omega

theorem waitInv_exec (cfg : Config) (acts : List Action) : WaitInv (exec cfg acts) :=
  exec_invariant cfg WaitInv (by simp [WaitInv, init]) (waitInv_step cfg) acts

/-! ## Worker ids -/

theorem pulled_length_le (cfg : Config) (acts : List Action) :
    (pulledIds (exec cfg acts).log).length ≤ cfg.tasks.length := by
  have h := congrArg List.length (fifoInv_exec cfg acts)
  simp only [List.length_append, List.length_map, List.length_take] at h
  omega

theorem attempts_le_one (cfg : Config) (hnodup : (cfg.tasks.map Task.id).Nodup)
    (acts : List Action) (id : Int) : attempts (exec cfg acts).log id ≤ 1 := by
  rw [attempts_eq_count]
  have h := fifoInv_exec cfg acts
  have h1 : (pulledIds (exec cfg acts).log).count id ≤
      ((cfg.tasks.take (enqueued cfg (exec cfg acts).mainPC)).map Task.id).count id := by
    rw [← h, List.count_append]
    omega
  have h2 : ((cfg.tasks.take (enqueued cfg (exec cfg acts).mainPC)).map Task.id).count id ≤
      (cfg.tasks.map Task.id).count id :=
    List.Sublist.count_le ((List.take_sublist _ _).map _) id
  have h3 := List.nodup_iff_count_le_one.mp hnodup id
  omega

theorem ledger_le_attempts (cfg : Config) (acts : List Action) (id : Int) :
    (exec cfg acts).taskRetryMap id ≤ attempts (exec cfg acts).log id := by
  have hl := (ledgerInv_exec cfg acts).2 id
  have ha := accountInv_exec cfg acts (· == id)
  simp only [reportsProcessed] at hl
  simp only [attempts]
  omega

theorem failSends_le_batch (cfg : Config) (acts : List Action) :
    failSends (exec cfg acts) ≤ cfg.tasks.length := by
  have ha := accountInv_exec cfg acts (fun _ => true)
  have hs := countP_isStarted_le_length (exec cfg acts).log (fun _ => true)
  have hp := pulled_length_le cfg acts
  simp only [failSends]
  simp only [List.countP_true] at ha
  omega

/-! ## Properties of the program -/

/-- C1 (violated by the code): in the run `scheduleOneFailure` of the program
as written, `main` reaches its final "All tasks completed." line and returns,
yet task 1, whose only attempt failed and whose report the recovery loop
answered with "Reassigning ... (Retry 1)", has neither a "completed" nor an
"exceeded the retry limit" line: it is left neither succeeded nor exhausted. -/
theorem failed_task_left_pending :
    (exec mainConfig scheduleOneFailure).mainPC = .exited ∧
    (exec mainConfig scheduleOneFailure).panicked = false ∧
    (exec mainConfig scheduleOneFailure).log =
      [.workerStarted 1 1 "Task 1", .workerFailed 1 1, .reassigning 1 1,
       .workerStarted 2 2 "Task 2", .workerCompleted 2 2,
       .workerStarted 2 3 "Task 3", .workerCompleted 2 3,
       .workerStarted 2 4 "Task 4", .workerCompleted 2 4,
       .workerStarted 2 5 "Task 5", .workerCompleted 2 5,
       .allTasksCompleted] ∧
    succeeded (exec mainConfig scheduleOneFailure).log 1 = false ∧
    exhausted (exec mainConfig scheduleOneFailure).log 1 = false ∧
    (exec mainConfig scheduleOneFailure).taskChan = [] ∧
    (exec mainConfig scheduleOneFailure).failChan = [] := by
  refine ⟨?_, ?_, ?_, ?_, ?_, ?_, ?_⟩ <;> rfl

/-- C2 (violated by the code): in the run of the program as written, when the
recovery loop takes the report for task 1 (ledger value after the increment
1, at most `MaxRetries`), it prints "Reassigning failed task 1 (Retry 1)" and
starts a replacement worker with id 1, but `taskChan` is left as it was: task 1
is not put back on it (and `taskChan` is already closed). -/
theorem reassignment_does_not_requeue :
    (exec mainConfig scheduleFailureReported).failChan = [⟨1, "Task 1", 0⟩] ∧
    (exec mainConfig scheduleFailureReported).taskRetryMap 1 + 1 ≤ mainConfig.maxRetries ∧
    (exec mainConfig scheduleFailureReported).taskClosed = true ∧
    (exec mainConfig (scheduleFailureReported ++ [.recovery])).taskRetryMap 1 = 1 ∧
    emitted (exec mainConfig scheduleFailureReported)
      (exec mainConfig (scheduleFailureReported ++ [.recovery])) = [.reassigning 1 1] ∧
    (exec mainConfig (scheduleFailureReported ++ [.recovery])).workers =
      (exec mainConfig scheduleFailureReported).workers ++ [⟨1, .recv⟩] ∧
    (exec mainConfig (scheduleFailureReported ++ [.recovery])).taskChan =
      (exec mainConfig scheduleFailureReported).taskChan ∧
    (exec mainConfig (scheduleFailureReported ++ [.recovery])).taskChan =
      [⟨2, "Task 2", 0⟩, ⟨3, "Task 3", 0⟩, ⟨4, "Task 4", 0⟩, ⟨5, "Task 5", 0⟩] := by
  refine ⟨?_, ?_, ?_, ?_, ?_, ?_, ?_, ?_⟩ <;> decide

/-- C3: for every batch with distinct task ids, every worker count, every
retry bound and every schedule and verdict choice, no task id is attempted
(pulled from `taskChan`, "started") more than `MaxRetries + 1` times. -/
theorem attempts_le_maxRetries_succ (cfg : Config)
    (hnodup : (cfg.tasks.map Task.id).Nodup) (acts : List Action) (id : Int) :
    attempts (exec cfg acts).log id ≤ cfg.maxRetries + 1 := by
  have h := attempts_le_one cfg hnodup acts id
  omega

theorem attempts_le_maxRetries_succ_witness :
    (mainConfig.tasks.map Task.id).Nodup ∧
    attempts (exec mainConfig scheduleOneFailure).log 1 ≤ mainConfig.maxRetries + 1 :=
  ⟨by decide, attempts_le_maxRetries_succ mainConfig (by decide) scheduleOneFailure 1⟩

/-- What one step does to the ledger: it is left as it is, or the step is the
recovery loop taking a report and exactly the entry of that task grows by 1. -/
theorem ledger_step (cfg : Config) :
    ∀ (s : State) (a : Action) (s' : State), step cfg s a = some s' →
      StageInv s → LedgerInv s →
      s'.taskRetryMap = s.taskRetryMap ∨
      (a = .recovery ∧ s.recovery = .listening ∧ ∃ t rest, s.failChan = t :: rest ∧
        s'.failChan = rest ∧
        s'.taskRetryMap = Function.update s.taskRetryMap t.id (s.taskRetryMap t.id + 1)) := by
  apply step_cases cfg (fun s a s' => StageInv s → LedgerInv s →
      s'.taskRetryMap = s.taskRetryMap ∨
      (a = .recovery ∧ s.recovery = .listening ∧ ∃ t rest, s.failChan = t :: rest ∧
        s'.failChan = rest ∧
        s'.taskRetryMap = Function.update s.taskRetryMap t.id (s.taskRetryMap t.id + 1)))
  case enqueue =>
    intro s k task hpc _ _ hst hl
    left
    have hr : s.recovery = .notStarted := hst.1.2 (by simp [hpc, MainPC.stage])
    have hz : s.taskRetryMap task.id = 0 := by
      rw [hl.2 task.id]
      exact ((hl.1 hr).2 _).1
    funext id
    by_cases hid : id = task.id
    · subst hid; simp [hz]
    · simp [Function.update_apply, hid]
  case exceed =>
    intro s t rest hpc hchan _ _ _
    exact Or.inr ⟨rfl, hpc, t, rest, hchan, rfl, rfl⟩
  case reassignMisuse =>
    intro s t rest hpc hchan _ _ _ _
    exact Or.inr ⟨rfl, hpc, t, rest, hchan, rfl, rfl⟩
  case reassign =>
    intro s t rest hpc hchan _ _ _ _
    exact Or.inr ⟨rfl, hpc, t, rest, hchan, rfl, rfl⟩
  all_goals
    intros
    left
    simp [setWorkerPC]

theorem not_ended_of_live (s : State) (hlive : s.live = true) :
    ¬ (s.panicked = true ∨ s.mainPC = .exited) := by
  simp only [State.live, Bool.and_eq_true, Bool.not_eq_true', bne_iff_ne, ne_eq] at hlive
  rintro (h | h)
  · rw [hlive.1] at h; exact Bool.noConfusion h
  · exact hlive.2 h

/-- What the body of the recovery loop does to the ledger and to `failChan`,
whichever branch it takes. -/
theorem recoveryBody_ledger (cfg : Config) (s : State) (t : Task) :
    (recoveryBody cfg s t).taskRetryMap =
      Function.update s.taskRetryMap t.id (s.taskRetryMap t.id + 1) ∧
    (recoveryBody cfg s t).failChan = s.failChan := by
  by_cases hlim : s.taskRetryMap t.id + 1 > cfg.maxRetries
  · rw [recoveryBody_exceeded cfg s t hlim]
    exact ⟨rfl, rfl⟩
  · by_cases hm : s.wgWaiters ≠ 0 ∧ s.wg = 0
    · rw [recoveryBody_misuse cfg s t hlim hm]
      exact ⟨rfl, rfl⟩
    · rw [recoveryBody_reassign cfg s t hlim hm]
      exact ⟨rfl, rfl⟩

/-- C4: every ledger entry starts at 0.  In every run, whenever the recovery
loop of the running process takes a failure report off `failChan`, that step
sets the entry of the reported task to exactly its previous value plus 1,
leaves the entries of all other ids as they are and removes the report from
`failChan`; a step changes the ledger only if it is such a step (a worker
start, a successful or failed attempt, a send, a `wg.Done()` and the
statements of `main` change no entry; the initialising writes of `main` store
0 over 0).  Hence no entry ever decreases, and every entry equals the number
of failure reports processed for its id: it equals the number of lines the
recovery loop has printed for that id, and together with the reports for that
id still buffered in `failChan` and the failed attempts on it still at the
send statement it accounts for every "failed" line of that id. -/
theorem ledger_single_writer (cfg : Config) (acts : List Action) (a : Action) :
    (∀ id : Int, (exec cfg []).taskRetryMap id = 0) ∧
    (∀ (t : Task) (rest : List Task), (exec cfg acts).live = true →
      (exec cfg acts).recovery = .listening → (exec cfg acts).failChan = t :: rest →
      (exec cfg (acts ++ [.recovery])).taskRetryMap =
        Function.update (exec cfg acts).taskRetryMap t.id
          ((exec cfg acts).taskRetryMap t.id + 1) ∧
      (exec cfg (acts ++ [.recovery])).failChan = rest ∧
      reportsProcessed (exec cfg (acts ++ [.recovery])).log t.id =
        reportsProcessed (exec cfg acts).log t.id + 1) ∧
    (∀ id : Int, (exec cfg acts).taskRetryMap id = reportsProcessed (exec cfg acts).log id) ∧
    (∀ id : Int,
      (exec cfg acts).taskRetryMap id +
          (exec cfg acts).failChan.countP (fun t => t.id == id) +
          (exec cfg acts).workers.countP (Worker.isSending (· == id)) =
        (exec cfg acts).log.countP (Event.isFailed (· == id))) ∧
    ((exec cfg (acts ++ [a])).taskRetryMap = (exec cfg acts).taskRetryMap ∨
      (a = .recovery ∧ (exec cfg acts).recovery = .listening ∧
        ∃ t rest, (exec cfg acts).failChan = t :: rest ∧
          (exec cfg (acts ++ [a])).failChan = rest ∧
          (exec cfg (acts ++ [a])).taskRetryMap =
            Function.update (exec cfg acts).taskRetryMap t.id
              ((exec cfg acts).taskRetryMap t.id + 1))) ∧
    (∀ id : Int, (exec cfg acts).taskRetryMap id ≤ (exec cfg (acts ++ [a])).taskRetryMap id) := by
  have hstep : (exec cfg (acts ++ [a])).taskRetryMap = (exec cfg acts).taskRetryMap ∨
      (a = .recovery ∧ (exec cfg acts).recovery = .listening ∧
        ∃ t rest, (exec cfg acts).failChan = t :: rest ∧
          (exec cfg (acts ++ [a])).failChan = rest ∧
          (exec cfg (acts ++ [a])).taskRetryMap =
            Function.update (exec cfg acts).taskRetryMap t.id
              ((exec cfg acts).taskRetryMap t.id + 1)) := by
    rw [exec_snoc]
    unfold next
    cases h : step cfg (exec cfg acts) a with
    | none => exact Or.inl rfl
    | some s' =>
      exact ledger_step cfg _ a s' h (stageInv_exec cfg acts) (ledgerInv_exec cfg acts)
  have hforward : ∀ (t : Task) (rest : List Task), (exec cfg acts).live = true →
      (exec cfg acts).recovery = .listening → (exec cfg acts).failChan = t :: rest →
      (exec cfg (acts ++ [.recovery])).taskRetryMap =
        Function.update (exec cfg acts).taskRetryMap t.id
          ((exec cfg acts).taskRetryMap t.id + 1) ∧
      (exec cfg (acts ++ [.recovery])).failChan = rest := by
    intro t rest hlive hr hc
    have hrun := not_ended_of_live _ hlive
    have hs : step cfg (exec cfg acts) .recovery =
        some (recoveryBody cfg { exec cfg acts with failChan := rest } t) := by
      simp only [step, hrun, if_false, recoveryStep, hr, hc]
    rw [exec_snoc]
    unfold next
    rw [hs]
    exact recoveryBody_ledger cfg { exec cfg acts with failChan := rest } t
  refine ⟨fun _ => rfl, fun t rest hlive hr hc => ?_, (ledgerInv_exec cfg acts).2,
    fun id => ?_, hstep, fun id => ?_⟩
  · obtain ⟨h1, h2⟩ := hforward t rest hlive hr hc
    refine ⟨h1, h2, ?_⟩
    have e1 := (ledgerInv_exec cfg (acts ++ [Action.recovery])).2 t.id
    have e2 := (ledgerInv_exec cfg acts).2 t.id
    rw [← e1, ← e2, h1]
    simp
  · have hl := (ledgerInv_exec cfg acts).2 id
    have ha := (accountInv_exec cfg acts (· == id)).2
    simp only [reportsProcessed] at hl
    omega
  · rcases hstep with h | ⟨_, _, t, rest, _, _, h⟩
    · rw [h]
    · rw [h]
      by_cases hid : id = t.id
      · subst hid; simp
      · simp [Function.update_apply, hid]

theorem ledger_single_writer_witness :
    (exec mainConfig scheduleFailureReported).live = true ∧
    (exec mainConfig scheduleFailureReported).recovery = .listening ∧
    (exec mainConfig scheduleFailureReported).failChan = [⟨1, "Task 1", 0⟩] ∧
    (exec mainConfig scheduleFailureReported).taskRetryMap 1 = 0 ∧
    (exec mainConfig (scheduleFailureReported ++ [.recovery])).taskRetryMap =
      Function.update (exec mainConfig scheduleFailureReported).taskRetryMap 1
        ((exec mainConfig scheduleFailureReported).taskRetryMap 1 + 1) ∧
    (exec mainConfig (scheduleFailureReported ++ [.recovery])).failChan = [] ∧
    reportsProcessed (exec mainConfig (scheduleFailureReported ++ [.recovery])).log 1 =
      reportsProcessed (exec mainConfig scheduleFailureReported).log 1 + 1 :=
  ⟨by decide, by decide, by decide, by decide,
    (ledger_single_writer mainConfig scheduleFailureReported .recovery).2.1
      ⟨1, "Task 1", 0⟩ [] (by decide) (by decide) (by decide)⟩

/-- A step prints no "exceeded the retry limit" line unless it leaves a ledger
entry above the retry bound. -/
theorem exhausted_step (cfg : Config) (id : Int) :
    ∀ (s : State) (a : Action) (s' : State), step cfg s a = some s' →
      exhausted s'.log id = exhausted s.log id ∨
      ∃ j : Int, cfg.maxRetries < s'.taskRetryMap j := by
  apply step_cases cfg (fun s _ s' => exhausted s'.log id = exhausted s.log id ∨
      ∃ j : Int, cfg.maxRetries < s'.taskRetryMap j)
  case exceed =>
    intro s t rest _ _ hlim
    exact Or.inr ⟨t.id, by simpa using hlim⟩
  all_goals
    intros
    left
    simp [exhausted, setWorkerPC, Event.isExceeded]

theorem never_exhausted (cfg : Config) (hmax : 1 ≤ cfg.maxRetries)
    (hled : ∀ (l : List Action) (id : Int), (exec cfg l).taskRetryMap id ≤ 1)
    (id : Int) : ∀ acts : List Action, exhausted (exec cfg acts).log id = false := by
  intro acts
  induction acts using List.reverseRecOn with
  | nil => rfl
  | append_singleton l a ih =>
    have hs := hled (l ++ [a])
    rw [exec_snoc] at hs ⊢
    unfold next at hs ⊢
    cases h : step cfg (exec cfg l) a with
    | none => simpa [h] using ih
    | some s' =>
      simp only [h, Option.getD_some] at hs ⊢
      rcases exhausted_step cfg id _ a s' h with h1 | ⟨j, hj⟩
      · rw [h1, ih]
      · have := hs j
        omega

/-- C10: in every run over a batch with distinct task ids, every task id has
been pulled from `taskChan` at most once, the number of messages ever sent on
`failChan` is at most the batch size, every ledger entry is at most 1, and, if
`MaxRetries` is at least 1 (it is 3), no "exceeded the retry limit" line is
ever printed. -/
theorem single_attempt (cfg : Config) (hnodup : (cfg.tasks.map Task.id).Nodup)
    (acts : List Action) :
    (∀ id : Int, attempts (exec cfg acts).log id ≤ 1) ∧
    failSends (exec cfg acts) ≤ cfg.tasks.length ∧
    (∀ id : Int, (exec cfg acts).taskRetryMap id ≤ 1) ∧
    (1 ≤ cfg.maxRetries → ∀ id : Int, exhausted (exec cfg acts).log id = false) := by
  have hled : ∀ (l : List Action) (id : Int), (exec cfg l).taskRetryMap id ≤ 1 := fun l id =>
    Nat.le_trans (ledger_le_attempts cfg l id) (attempts_le_one cfg hnodup l id)
  refine ⟨attempts_le_one cfg hnodup acts, failSends_le_batch cfg acts, hled acts, ?_⟩
  intro hmax id
  exact never_exhausted cfg hmax hled id acts

theorem single_attempt_witness :
    (mainConfig.tasks.map Task.id).Nodup ∧
    (∀ id : Int, attempts (exec mainConfig scheduleOneFailure).log id ≤ 1) ∧
    failSends (exec mainConfig scheduleOneFailure) ≤ mainConfig.tasks.length ∧
    (∀ id : Int, (exec mainConfig scheduleOneFailure).taskRetryMap id ≤ 1) ∧
    (1 ≤ mainConfig.maxRetries →
      ∀ id : Int, exhausted (exec mainConfig scheduleOneFailure).log id = false) :=
  ⟨by decide, single_attempt mainConfig (by decide) scheduleOneFailure⟩

/-- A step prints an "exceeded the retry limit" line only if it is the recovery
loop taking a report whose incremented ledger value is above the retry bound. -/
theorem exceeded_only_above_limit (cfg : Config) :
    ∀ (s : State) (a : Action) (s' : State), step cfg s a = some s' →
      (∃ e ∈ emitted s s', Event.isExceeded (fun _ => true) e = true) →
      a = .recovery ∧ ∃ t rest, s.failChan = t :: rest ∧
        cfg.maxRetries < s.taskRetryMap t.id + 1 := by
  apply step_cases cfg (fun s a s' =>
      (∃ e ∈ emitted s s', Event.isExceeded (fun _ => true) e = true) →
      a = .recovery ∧ ∃ t rest, s.failChan = t :: rest ∧
        cfg.maxRetries < s.taskRetryMap t.id + 1)
  case exceed =>
    intro s t rest _ hchan hlim _
    exact ⟨rfl, t, rest, hchan, hlim⟩
  all_goals
    intros
    rename_i h
    simp [emitted, setWorkerPC, Event.isExceeded] at h

/-- C6: when the recovery loop of a running process takes a failure report
whose incremented ledger value is strictly greater than `MaxRetries`, its step
increments the entry, prints the "exceeded the retry limit" line for that id
and does nothing else: the workers, `taskChan`, `workerCounter` and the
WaitGroup counter are unchanged and no "Reassigning" line is printed; when the
incremented value is at most `MaxRetries` the step prints only a "Reassigning"
line; and, in any state, no step of any thread prints an "exceeded" line unless
it is the recovery loop taking a report whose incremented value exceeds
`MaxRetries`. -/
theorem retry_limit_step (cfg : Config) (s : State) :
    (∀ (t : Task) (rest : List Task), s.live = true → s.recovery = .listening →
      s.failChan = t :: rest →
      (cfg.maxRetries < s.taskRetryMap t.id + 1 →
        step cfg s .recovery = some
          { s with failChan := rest,
                   taskRetryMap :=
                     Function.update s.taskRetryMap t.id (s.taskRetryMap t.id + 1),
                   log := s.log ++ [Event.retryLimitExceeded t.id cfg.maxRetries] }) ∧
      (¬ cfg.maxRetries < s.taskRetryMap t.id + 1 →
        ∃ s', step cfg s .recovery = some s' ∧
          emitted s s' = [Event.reassigning t.id (s.taskRetryMap t.id + 1)])) ∧
    (∀ (a : Action) (s' : State), step cfg s a = some s' →
      (∃ e ∈ emitted s s', Event.isExceeded (fun _ => true) e = true) →
      a = .recovery ∧ ∃ t rest, s.failChan = t :: rest ∧
        cfg.maxRetries < s.taskRetryMap t.id + 1) := by
  refine ⟨fun t rest hlive hr hc => ?_, fun a s' h he => exceeded_only_above_limit cfg s a s' h he⟩
  have hrun := not_ended_of_live s hlive
  have hstep : step cfg s .recovery = some (recoveryBody cfg { s with failChan := rest } t) := by
    simp only [step, hrun, if_false, recoveryStep, hr, hc]
  refine ⟨fun hlim => ?_, fun hlim => ?_⟩
  · rw [hstep, recoveryBody_exceeded cfg { s with failChan := rest } t hlim]
  · refine ⟨_, hstep, ?_⟩
    by_cases hm : s.wgWaiters ≠ 0 ∧ s.wg = 0
    · rw [recoveryBody_misuse cfg { s with failChan := rest } t hlim hm]
      simp [emitted]
    · rw [recoveryBody_reassign cfg { s with failChan := rest } t hlim hm]
      simp [emitted]

theorem retry_limit_step_witness :
    (exec scenarioB scheduleScenarioB).live = true ∧
    (exec scenarioB scheduleScenarioB).recovery = .listening ∧
    (exec scenarioB scheduleScenarioB).failChan = [⟨1, "Task 1", 0⟩] ∧
    scenarioB.maxRetries < (exec scenarioB scheduleScenarioB).taskRetryMap 1 + 1 ∧
    step scenarioB (exec scenarioB scheduleScenarioB) .recovery = some
      { exec scenarioB scheduleScenarioB with
        failChan := [],
        taskRetryMap := Function.update (exec scenarioB scheduleScenarioB).taskRetryMap 1
          ((exec scenarioB scheduleScenarioB).taskRetryMap 1 + 1),
        log := (exec scenarioB scheduleScenarioB).log ++ [Event.retryLimitExceeded 1 0] } :=
  ⟨by decide, by decide, by decide, by decide,
    ((retry_limit_step scenarioB (exec scenarioB scheduleScenarioB)).1 ⟨1, "Task 1", 0⟩ []
      (by decide) (by decide) (by decide)).1 (by decide)⟩

theorem get?_set_self {α : Type} (l : List α) (i : Nat) (w w' : α) (h : l.get? i = some w) :
    (l.set i w').get? i = some w' := by
  induction l generalizing i with
  | nil => simp at h
  | cons x l ih =>
    cases i with
    | zero => simp
    | succ i => simpa using ih i (by simpa using h)

theorem one_le_countP_of_get? {α : Type} (q : α → Bool) (l : List α) (i : Nat) (w : α)
    (h : l.get? i = some w) (hq : q w = true) : 1 ≤ l.countP q := by
  induction l generalizing i with
  | nil => simp at h
  | cons x l ih =>
    cases i with
    | zero =>
      simp at h
      subst h
      simp [List.countP_cons, hq]
    | succ i =>
      have := ih i (by simpa using h)
      simp only [List.countP_cons]
      omega

/-- In a run, a worker standing at `failChan <- task` finds room in the buffer. -/
theorem send_has_room (cfg : Config) (acts : List Action) (i : Nat) (w : Worker) (t : Task)
    (hw : (exec cfg acts).workers.get? i = some w) (hpc : w.pc = .sending t) :
    (exec cfg acts).failChan.length < cfg.tasks.length := by
  have ha := accountInv_exec cfg acts (fun _ => true)
  have hs := countP_isStarted_le_length (exec cfg acts).log (fun _ => true)
  have hp := pulled_length_le cfg acts
  have h1 := one_le_countP_of_get? (Worker.isSending (fun _ => true)) _ i w hw
    (by simp [Worker.isSending, hpc])
  simp only [List.countP_true] at ha
  omega

/-- In a run, a worker about to run its deferred `wg.Done()` finds a positive counter. -/
theorem done_has_count (cfg : Config) (acts : List Action) (i : Nat) (w : Worker)
    (hw : (exec cfg acts).workers.get? i = some w) (hpc : w.pc = .returning) :
    (exec cfg acts).wg ≠ 0 := by
  have hwg := wgInv_exec cfg acts
  have h1 := one_le_countP_of_get? Worker.isLive _ i w hw (by simp [Worker.isLive, hpc])
  unfold WgInv at hwg
  omega

/-- What a worker does, in every run, while the process is running: every
pulled task has its verdict evaluated once and every failed attempt has one
message on `failChan` or stands at the send statement.  Holding a task, on
Failure the worker prints "failed" and goes to `failChan <- task`; there it
never blocks: with `failChan` open it sends exactly that task and leaves the
function, with `failChan` closed the statement panics; leaving, it only runs
`wg.Done()` and ends; on Success it prints "completed", sends nothing and
returns to the head of the loop.  At the head of the loop it pulls the oldest
task if there is one, leaves the function only if `taskChan` is closed and
empty, and blocks if it is open and empty. -/
theorem worker_steps (cfg : Config) (acts : List Action) (i : Nat) (w : Worker)
    (v : Verdict) (hw : (exec cfg acts).workers.get? i = some w)
    (hlive : (exec cfg acts).live = true) :
    AccountInv (exec cfg acts) ∧
    (∀ t : Task, w.pc = .running t →
      (∃ s', step cfg (exec cfg acts) (.worker i .failure) = some s' ∧
        s'.workers.get? i = some { w with pc := .sending t } ∧
        emitted (exec cfg acts) s' = [Event.workerFailed w.id t.id] ∧
        s'.failChan = (exec cfg acts).failChan ∧ s'.taskChan = (exec cfg acts).taskChan) ∧
      (∃ s', step cfg (exec cfg acts) (.worker i .success) = some s' ∧
        s'.workers.get? i = some { w with pc := .recv } ∧
        emitted (exec cfg acts) s' = [Event.workerCompleted w.id t.id] ∧
        s'.failChan = (exec cfg acts).failChan ∧ s'.taskChan = (exec cfg acts).taskChan)) ∧
    (∀ t : Task, w.pc = .sending t →
      ((exec cfg acts).failClosed = false →
        ∃ s', step cfg (exec cfg acts) (.worker i v) = some s' ∧
          s'.failChan = (exec cfg acts).failChan ++ [t] ∧
          s'.workers.get? i = some { w with pc := .returning } ∧
          emitted (exec cfg acts) s' = [] ∧ s'.taskChan = (exec cfg acts).taskChan) ∧
      ((exec cfg acts).failClosed = true →
        step cfg (exec cfg acts) (.worker i v) =
          some { exec cfg acts with panicked := true })) ∧
    (w.pc = .returning →
      ∃ s', step cfg (exec cfg acts) (.worker i v) = some s' ∧
        s'.workers.get? i = some { w with pc := .done } ∧
        s'.wg + 1 = (exec cfg acts).wg ∧
        emitted (exec cfg acts) s' = [] ∧
        s'.failChan = (exec cfg acts).failChan ∧ s'.taskChan = (exec cfg acts).taskChan) ∧
    (w.pc = .done → step cfg (exec cfg acts) (.worker i v) = none) ∧
    (w.pc = .recv →
      (∀ (t : Task) (rest : List Task), (exec cfg acts).taskChan = t :: rest →
        ∃ s', step cfg (exec cfg acts) (.worker i v) = some s' ∧
          s'.workers.get? i = some { w with pc := .running t } ∧
          s'.taskChan = rest ∧
          emitted (exec cfg acts) s' = [Event.workerStarted w.id t.id t.data] ∧
          s'.failChan = (exec cfg acts).failChan) ∧
      ((exec cfg acts).taskChan = [] → (exec cfg acts).taskClosed = true →
        ∃ s', step cfg (exec cfg acts) (.worker i v) = some s' ∧
          s'.workers.get? i = some { w with pc := .returning } ∧
          emitted (exec cfg acts) s' = [] ∧
          s'.failChan = (exec cfg acts).failChan) ∧
      ((exec cfg acts).taskChan = [] → (exec cfg acts).taskClosed = false →
        step cfg (exec cfg acts) (.worker i v) = none)) := by
  have hroom : ∀ t : Task, w.pc = .sending t →
      (exec cfg acts).failChan.length < cfg.tasks.length :=
    fun t hpc => send_has_room cfg acts i w t hw hpc
  have hwg : w.pc = .returning → (exec cfg acts).wg ≠ 0 :=
    fun hpc => done_has_count cfg acts i w hw hpc
  have hacc := accountInv_exec cfg acts
  generalize exec cfg acts = s at hw hlive hroom hwg hacc ⊢
  have hrun := not_ended_of_live s hlive
  have hstep : ∀ v' : Verdict, step cfg s (.worker i v') = workerStep cfg s i w v' := by
    intro v'
    simp only [step, hrun, if_false, hw]
  have hget : ∀ pc : WorkerPC,
      (s.workers.set i { w with pc := pc }).get? i = some { w with pc := pc } :=
    fun pc => get?_set_self _ i w _ hw
  refine ⟨hacc, ?_, ?_, ?_, ?_, ?_⟩
  · intro t hpc
    constructor
    · have e : step cfg s (.worker i .failure) = some
          { setWorkerPC s i w (.sending t) with
            log := s.log ++ [Event.workerFailed w.id t.id] } := by
        rw [hstep]; simp only [workerStep, hpc]
      exact ⟨_, e, hget _, by simp [emitted, setWorkerPC], rfl, rfl⟩
    · have e : step cfg s (.worker i .success) = some
          { setWorkerPC s i w .recv with
            log := s.log ++ [Event.workerCompleted w.id t.id] } := by
        rw [hstep]; simp only [workerStep, hpc]
      exact ⟨_, e, hget _, by simp [emitted, setWorkerPC], rfl, rfl⟩
  · intro t hpc
    refine ⟨fun hcl => ?_, fun hcl => ?_⟩
    · have e : step cfg s (.worker i v) = some
          { setWorkerPC s i w .returning with failChan := s.failChan ++ [t] } := by
        rw [hstep]; simp [workerStep, hpc, hcl, hroom t hpc]
      exact ⟨_, e, rfl, hget _, by simp [emitted, setWorkerPC], rfl⟩
    · rw [hstep]; simp [workerStep, hpc, hcl]
  · intro hpc
    have e : step cfg s (.worker i v) = some
        { setWorkerPC s i w .done with
          wg := s.wg - 1,
          wgWaiters := if s.wg = 1 then 0 else s.wgWaiters,
          wgSema := if s.wg = 1 then s.wgSema + s.wgWaiters else s.wgSema } := by
      rw [hstep]; simp [workerStep, hpc, hwg hpc]
    have h0 := hwg hpc
    exact ⟨_, e, hget _, by show s.wg - 1 + 1 = s.wg; omega, by simp [emitted, setWorkerPC],
      rfl, rfl⟩
  · intro hpc
    rw [hstep]
    simp only [workerStep, hpc]
  · intro hpc
    refine ⟨fun t rest hchan => ?_, fun hchan hcl => ?_, fun hchan hcl => ?_⟩
    · have e : step cfg s (.worker i v) = some
          { setWorkerPC s i w (.running t) with
            taskChan := rest,
            log := s.log ++ [Event.workerStarted w.id t.id t.data] } := by
        rw [hstep]; simp only [workerStep, hpc, hchan]
      exact ⟨_, e, hget _, rfl, by simp [emitted, setWorkerPC], rfl⟩
    · have e : step cfg s (.worker i v) = some (setWorkerPC s i w .returning) := by
        rw [hstep]; simp [workerStep, hpc, hchan, hcl]
      exact ⟨_, e, hget _, by simp [emitted, setWorkerPC], rfl⟩
    · rw [hstep]
      simp [workerStep, hpc, hchan, hcl]

/-- C7 (violated by the code): in the run `scheduleSendOnClosed` of the program
as written the process is running and the replacement worker (position 3,
id 1) has pulled task 4, drawn Failure, printed "failed" and stands at
`failChan <- task`, while `main` has already closed `failChan`.  Its next step
panics: the failed attempt on task 4 puts no message on `failChan` (the
buffer still holds only the reports for tasks 2 and 3, and none for task 4 was
ever processed), and the worker does not leave `worker` and run `wg.Done()`:
the process has crashed with the worker still at the send statement. -/
theorem failed_attempt_sends_nothing :
    schedulePanic = scheduleSendOnClosed ++ [.worker 3 .failure] ∧
    (exec mainConfig scheduleSendOnClosed).live = true ∧
    (exec mainConfig scheduleSendOnClosed).workers.get? 3 =
      some ⟨1, .sending ⟨4, "Task 4", 0⟩⟩ ∧
    (exec mainConfig scheduleSendOnClosed).failClosed = true ∧
    (exec mainConfig scheduleSendOnClosed).log.countP (Event.isFailed (· == 4)) = 1 ∧
    (exec mainConfig scheduleSendOnClosed).failChan =
      [⟨2, "Task 2", 0⟩, ⟨3, "Task 3", 0⟩] ∧
    (exec mainConfig (scheduleSendOnClosed ++ [.worker 3 .failure])).panicked = true ∧
    (exec mainConfig (scheduleSendOnClosed ++ [.worker 3 .failure])).failChan =
      [⟨2, "Task 2", 0⟩, ⟨3, "Task 3", 0⟩] ∧
    reportsProcessed (exec mainConfig (scheduleSendOnClosed ++ [.worker 3 .failure])).log 4 = 0 ∧
    (exec mainConfig (scheduleSendOnClosed ++ [.worker 3 .failure])).workers.get? 3 =
      some ⟨1, .sending ⟨4, "Task 4", 0⟩⟩ ∧
    (exec mainConfig (scheduleSendOnClosed ++ [.worker 3 .failure])).wg = 1 := by
  refine ⟨?_, ?_, ?_, ?_, ?_, ?_, ?_, ?_, ?_, ?_, ?_⟩ <;> decide

/-- C8 (violated by the code): the run `schedulePanic` of the program as
written ends in a crash.  The three initial workers fail and end before the
recovery loop has added a replacement to the WaitGroup, so `wg.Wait()` returns
and `main` closes `failChan`; the recovery loop then starts a replacement,
which pulls task 4, fails and sends on the closed `failChan`.  The process has
panicked with `main` still before its final line, task 5 still in `taskChan`,
no "All tasks completed." printed, and no thread can take a step. -/
theorem run_ends_in_panic :
    (exec mainConfig schedulePanic).panicked = true ∧
    (exec mainConfig schedulePanic).mainPC = .printDone ∧
    (exec mainConfig schedulePanic).failClosed = true ∧
    (exec mainConfig schedulePanic).workers.get? 3 = some ⟨1, .sending ⟨4, "Task 4", 0⟩⟩ ∧
    (exec mainConfig schedulePanic).taskChan = [⟨5, "Task 5", 0⟩] ∧
    (exec mainConfig schedulePanic).log =
      [.workerStarted 1 1 "Task 1", .workerFailed 1 1,
       .workerStarted 2 2 "Task 2", .workerFailed 2 2,
       .workerStarted 3 3 "Task 3", .workerFailed 3 3,
       .reassigning 1 1,
       .workerStarted 1 4 "Task 4", .workerFailed 1 4] ∧
    (∀ a : Action, step mainConfig (exec mainConfig schedulePanic) a = none) := by
  have hp : (exec mainConfig schedulePanic).panicked = true := by decide
  refine ⟨hp, by decide, by decide, by decide, by decide, by decide, fun a => ?_⟩
  simp only [step, hp, true_or, if_true]

/-- C9 (as stated, fails): in the program as written `main` closes `taskChan`
right after the loop of lines 75-78; at that step no task has completed or
been declared exhausted (no line at all has been printed), while the batch
has five tasks. -/
theorem taskChan_closed_before_any_terminal_event :
    (exec mainConfig scheduleEnqueued).taskClosed = false ∧
    (exec mainConfig (scheduleEnqueued ++ [.main])).taskClosed = true ∧
    terminalEvents (exec mainConfig scheduleEnqueued).log = 0 ∧
    (exec mainConfig scheduleEnqueued).log = [] ∧
    mainConfig.tasks.length = 5 := by
  refine ⟨?_, ?_, ?_, ?_, ?_⟩ <;> decide

/-- Which steps close a channel and which move `main` forward. -/
theorem close_step (cfg : Config) :
    ∀ (s : State) (a : Action) (s' : State), step cfg s a = some s' →
      (s.taskClosed = false → s'.taskClosed = true → a = .main ∧ s.mainPC = .closeTaskChan) ∧
      (s.failClosed = false → s'.failClosed = true → a = .main ∧ s.mainPC = .closeFailChan) ∧
      (s'.mainPC.stage = s.mainPC.stage ∨
        (s'.mainPC.stage = s.mainPC.stage + 1 ∧
          (s.mainPC.stage = 4 → s.mainPC = .waitWorkers ∧ s.wg = 0))) := by
  apply step_cases cfg (fun s a s' =>
      (s.taskClosed = false → s'.taskClosed = true → a = .main ∧ s.mainPC = .closeTaskChan) ∧
      (s.failClosed = false → s'.failClosed = true → a = .main ∧ s.mainPC = .closeFailChan) ∧
      (s'.mainPC.stage = s.mainPC.stage ∨
        (s'.mainPC.stage = s.mainPC.stage + 1 ∧
          (s.mainPC.stage = 4 → s.mainPC = .waitWorkers ∧ s.wg = 0))))
  case spawnMisuse => intro s i hpc _ _; simp [hpc, MainPC.stage]
  case spawn => intro s i hpc _; simp [hpc, MainPC.stage]
  case spawnEnd => intro s i hpc _; simp [hpc, MainPC.stage]
  case enqueue => intro s k task hpc _ _; simp [hpc, MainPC.stage]
  case enqueueEnd => intro s k hpc _; simp [hpc, MainPC.stage]
  case closeTask => intro s hpc; simp [hpc, MainPC.stage]
  case startRecovery => intro s hpc; simp [hpc, MainPC.stage]
  case wait => intro s hpc _ _ hwg; simp [hpc, hwg, MainPC.stage]
  case waitWake => intro s hpc _ hwg; simp [hpc, hwg, MainPC.stage]
  case waitReused => intro s hpc _ _; simp [hpc, MainPC.stage]
  case waitRegister => intro s hpc _ _ _; simp [hpc, MainPC.stage]
  case closeFail => intro s hpc; simp [hpc, MainPC.stage]
  case printDone => intro s hpc; simp [hpc, MainPC.stage]
  all_goals
    intros
    simp_all [setWorkerPC]

/-- Once `main` is past `wg.Wait()`, the run went through a state in which
`main` stood at `wg.Wait()` and the WaitGroup counter was zero. -/
theorem wait_returned (cfg : Config) :
    ∀ acts : List Action, 5 ≤ (exec cfg acts).mainPC.stage →
      ∃ pre post, acts = pre ++ post ∧ (exec cfg pre).mainPC = .waitWorkers ∧
        (exec cfg pre).wg = 0 := by
  intro acts
  induction acts using List.reverseRecOn with
  | nil => intro h; simp [exec, init, MainPC.stage] at h
  | append_singleton l a ih =>
    intro h
    rw [exec_snoc] at h
    unfold next at h
    cases hs : step cfg (exec cfg l) a with
    | none =>
      simp only [hs, Option.getD_none] at h
      obtain ⟨pre, post, rfl, h1, h2⟩ := ih h
      exact ⟨pre, post ++ [a], by simp, h1, h2⟩
    | some s' =>
      simp only [hs, Option.getD_some] at h
      rcases (close_step cfg _ a s' hs).2.2 with e | ⟨e, hw⟩
      · obtain ⟨pre, post, rfl, h1, h2⟩ := ih (by omega)
        exact ⟨pre, post ++ [a], by simp, h1, h2⟩
      · by_cases h5 : 5 ≤ (exec cfg l).mainPC.stage
        · obtain ⟨pre, post, rfl, h1, h2⟩ := ih h5
          exact ⟨pre, post ++ [a], by simp, h1, h2⟩
        · obtain ⟨h1, h2⟩ := hw (by omega)
          exact ⟨l, [a], rfl, h1, h2⟩

/-- C9 (amended): in every run, the step that closes `taskChan` is `main`
executing line 79, right after the loop that enqueues the batch: at that step
every task of the batch has been put on `taskChan` (the ids already pulled
followed by the ids still buffered are the ids of the batch), whatever the
number of terminal events; and the step that closes `failChan` is `main`
executing line 103, which it reaches only after `wg.Wait()` has returned, that
is after a state of the run in which the WaitGroup counter was zero and every
worker started until then had ended. -/
theorem closing_protocol (cfg : Config) (acts : List Action) (a : Action) :
    ((exec cfg acts).taskClosed = false → (exec cfg (acts ++ [a])).taskClosed = true →
      a = .main ∧ (exec cfg acts).mainPC = .closeTaskChan ∧
      pulledIds (exec cfg acts).log ++ (exec cfg acts).taskChan.map Task.id =
        cfg.tasks.map Task.id) ∧
    ((exec cfg acts).failClosed = false → (exec cfg (acts ++ [a])).failClosed = true →
      a = .main ∧ (exec cfg acts).mainPC = .closeFailChan ∧
      ∃ pre post, acts = pre ++ post ∧ (exec cfg pre).mainPC = .waitWorkers ∧
        (exec cfg pre).wg = 0 ∧ ∀ w ∈ (exec cfg pre).workers, w.pc = .done) := by
  constructor
  · intro h1 h2
    rw [exec_snoc] at h2
    unfold next at h2
    cases hs : step cfg (exec cfg acts) a with
    | none =>
      simp only [hs, Option.getD_none] at h2
      rw [h1] at h2
      exact Bool.noConfusion h2
    | some s' =>
      simp only [hs, Option.getD_some] at h2
      obtain ⟨ha, hpc⟩ := (close_step cfg _ a s' hs).1 h1 h2
      have hf := fifoInv_exec cfg acts
      simp only [FifoInv, hpc, enqueued, List.take_length] at hf
      exact ⟨ha, hpc, hf⟩
  · intro h1 h2
    rw [exec_snoc] at h2
    unfold next at h2
    cases hs : step cfg (exec cfg acts) a with
    | none =>
      simp only [hs, Option.getD_none] at h2
      rw [h1] at h2
      exact Bool.noConfusion h2
    | some s' =>
      simp only [hs, Option.getD_some] at h2
      obtain ⟨ha, hpc⟩ := (close_step cfg _ a s' hs).2.1 h1 h2
      obtain ⟨pre, post, hacts, hw1, hw2⟩ := wait_returned cfg acts (by simp [hpc, MainPC.stage])
      refine ⟨ha, hpc, pre, post, hacts, hw1, hw2, fun w hmem => ?_⟩
      have hwg := wgInv_exec cfg pre
      unfold WgInv at hwg
      rw [hw2] at hwg
      have hz := (List.countP_eq_zero.mp hwg.symm) w hmem
      cases hpcw : w.pc <;> simp [Worker.isLive, hpcw] at hz
      rfl

theorem closing_protocol_witness :
    (exec mainConfig scheduleEnqueued).taskClosed = false ∧
    (exec mainConfig (scheduleEnqueued ++ [.main])).taskClosed = true ∧
    (exec mainConfig scheduleEnqueued).mainPC = .closeTaskChan ∧
    pulledIds (exec mainConfig scheduleEnqueued).log ++
        (exec mainConfig scheduleEnqueued).taskChan.map Task.id =
      mainConfig.tasks.map Task.id :=
  ⟨by decide, by decide,
    ((closing_protocol mainConfig scheduleEnqueued .main).1 (by decide) (by decide)).2⟩

/-- No step of the recovery loop puts anything on `taskChan`. -/
theorem recovery_never_enqueues (cfg : Config) :
    ∀ (s : State) (a : Action) (s' : State), step cfg s a = some s' →
      a = .recovery → s'.taskChan = s.taskChan := by
  apply step_cases cfg (fun s a s' => a = .recovery → s'.taskChan = s.taskChan)
  all_goals
    intros
    first
      | rfl
      | (rename_i h; exact absurd h (by simp))

/-! ## Runs are finite and end with `main` returned or with a panic -/

theorem sum_weight_set (l : List Worker) (i : Nat) (w : Worker) (pc : WorkerPC)
    (h : l.get? i = some w) :
    ((l.set i { w with pc := pc }).map (fun w => WorkerPC.weight w.pc)).sum + WorkerPC.weight w.pc =
      (l.map (fun w => WorkerPC.weight w.pc)).sum + WorkerPC.weight pc := by
  induction l generalizing i with
  | nil => simp at h
  | cons x l ih =>
    cases i with
    | zero =>
      simp at h
      subst h
      simp only [List.set_cons_zero, List.map_cons, List.sum_cons]
      omega
    | succ i =>
      have := ih i (by simpa using h)
      simp only [List.set_cons_succ, List.map_cons, List.sum_cons]
      omega

/-- Every step makes `potential` strictly smaller. -/
theorem step_decreases (cfg : Config) :
    ∀ (s : State) (a : Action) (s' : State), step cfg s a = some s' →
      s.panicked = false → potential cfg s' < potential cfg s := by
  apply step_cases cfg (fun s _ s' => s.panicked = false → potential cfg s' < potential cfg s)
  case spawnMisuse =>
    intro s i hpc hi _ hp
    simp only [potential, hp, hpc, MainPC.weight, RecoveryPC.weight, List.map_append, List.map_cons,
      List.map_nil, List.sum_append, List.sum_cons, List.sum_nil, List.length_append,
      List.length_cons, List.length_nil, Bool.false_eq_true, if_false, if_true, WorkerPC.weight]
    omega
  case spawn =>
    intro s i hpc hi hp
    simp only [potential, hp, hpc, MainPC.weight, RecoveryPC.weight, List.map_append, List.map_cons,
      List.map_nil, List.sum_append, List.sum_cons, List.sum_nil, List.length_append,
      List.length_cons, List.length_nil, Bool.false_eq_true, if_false, if_true, WorkerPC.weight]
    omega
  case spawnEnd =>
    intro s i hpc hi hp
    simp only [potential, hp, hpc, MainPC.weight, RecoveryPC.weight, List.map_append, List.map_cons,
      List.map_nil, List.sum_append, List.sum_cons, List.sum_nil, List.length_append,
      List.length_cons, List.length_nil, Bool.false_eq_true, if_false, if_true, WorkerPC.weight]
    omega
  case enqueue =>
    intro s k task hpc htask _ hp
    have hk : k < cfg.tasks.length := (List.get?_eq_some.mp htask).1
    simp only [potential, hp, hpc, MainPC.weight, RecoveryPC.weight, List.map_append, List.map_cons,
      List.map_nil, List.sum_append, List.sum_cons, List.sum_nil, List.length_append,
      List.length_cons, List.length_nil, Bool.false_eq_true, if_false, if_true, WorkerPC.weight]
    omega
  case enqueueEnd =>
    intro s k hpc _ hp
    simp only [potential, hp, hpc, MainPC.weight, RecoveryPC.weight, List.map_append, List.map_cons,
      List.map_nil, List.sum_append, List.sum_cons, List.sum_nil, List.length_append,
      List.length_cons, List.length_nil, Bool.false_eq_true, if_false, if_true, WorkerPC.weight]
    omega
  case closeTask =>
    intro s hpc hp
    simp only [potential, hp, hpc, MainPC.weight, RecoveryPC.weight, List.map_append, List.map_cons,
      List.map_nil, List.sum_append, List.sum_cons, List.sum_nil, List.length_append,
      List.length_cons, List.length_nil, Bool.false_eq_true, if_false, if_true, WorkerPC.weight]
    omega
  case startRecovery =>
    intro s hpc hp
    simp only [potential, hp, hpc, MainPC.weight, RecoveryPC.weight, List.map_append, List.map_cons,
      List.map_nil, List.sum_append, List.sum_cons, List.sum_nil, List.length_append,
      List.length_cons, List.length_nil, Bool.false_eq_true, if_false, if_true, WorkerPC.weight]
    omega
  case waitWake =>
    intro s hpc hsema _ hp
    simp only [potential, hp, hpc, MainPC.weight, RecoveryPC.weight, List.map_append, List.map_cons,
      List.map_nil, List.sum_append, List.sum_cons, List.sum_nil, List.length_append,
      List.length_cons, List.length_nil, Bool.false_eq_true, if_false, if_true, WorkerPC.weight]
    split_ifs <;> omega
  case waitReused =>
    intro s hpc _ _ hp
    simp only [potential, hp, hpc, MainPC.weight, RecoveryPC.weight, List.map_append, List.map_cons,
      List.map_nil, List.sum_append, List.sum_cons, List.sum_nil, List.length_append,
      List.length_cons, List.length_nil, Bool.false_eq_true, if_false, if_true, WorkerPC.weight]
    omega
  case wait =>
    intro s hpc _ _ _ hp
    simp only [potential, hp, hpc, MainPC.weight, RecoveryPC.weight, List.map_append, List.map_cons,
      List.map_nil, List.sum_append, List.sum_cons, List.sum_nil, List.length_append,
      List.length_cons, List.length_nil, Bool.false_eq_true, if_false, if_true, WorkerPC.weight]
    omega
  case waitRegister =>
    intro s hpc hsema hw _ hp
    have hT : (if s.wgWaiters = 0 ∧ s.wgSema = 0 then 1 else 0) = 1 := by simp [hw, hsema]
    have hT' : (if s.wgWaiters + 1 = 0 ∧ s.wgSema = 0 then 1 else 0) = 0 := by simp
    simp only [potential, hp, hpc, MainPC.weight, RecoveryPC.weight, Bool.false_eq_true,
      if_false, hT, hT']
    omega
  case closeFail =>
    intro s hpc hp
    simp only [potential, hp, hpc, MainPC.weight, RecoveryPC.weight, List.map_append, List.map_cons,
      List.map_nil, List.sum_append, List.sum_cons, List.sum_nil, List.length_append,
      List.length_cons, List.length_nil, Bool.false_eq_true, if_false, if_true, WorkerPC.weight]
    omega
  case printDone =>
    intro s hpc hp
    simp only [potential, hp, hpc, MainPC.weight, RecoveryPC.weight, List.map_append, List.map_cons,
      List.map_nil, List.sum_append, List.sum_cons, List.sum_nil, List.length_append,
      List.length_cons, List.length_nil, Bool.false_eq_true, if_false, if_true, WorkerPC.weight]
    omega
  case pull =>
    intro s i w v task rest hw hpc hchan hp
    have h1 := sum_weight_set s.workers i w (.running task) hw
    have e1 : WorkerPC.weight w.pc = 2 := by rw [hpc]; rfl
    have e2 : WorkerPC.weight (.running task) = 6 := rfl
    simp only [potential, setWorkerPC, hp, hchan, List.length_append, List.length_cons,
      List.length_nil, Bool.false_eq_true, if_false]
    omega
  case drained =>
    intro s i w v hw hpc _ _ hp
    have h1 := sum_weight_set s.workers i w (.returning) hw
    have e1 : WorkerPC.weight w.pc = 2 := by rw [hpc]; rfl
    have e2 : WorkerPC.weight (.returning) = 1 := rfl
    simp only [potential, setWorkerPC, hp, List.length_append, List.length_cons,
      List.length_nil, Bool.false_eq_true, if_false]
    omega
  case fail =>
    intro s i w task hw hpc hp
    have h1 := sum_weight_set s.workers i w (.sending task) hw
    have e1 : WorkerPC.weight w.pc = 6 := by rw [hpc]; rfl
    have e2 : WorkerPC.weight (.sending task) = 5 := rfl
    simp only [potential, setWorkerPC, hp, List.length_append, List.length_cons,
      List.length_nil, Bool.false_eq_true, if_false]
    omega
  case succeed =>
    intro s i w task hw hpc hp
    have h1 := sum_weight_set s.workers i w (.recv) hw
    have e1 : WorkerPC.weight w.pc = 6 := by rw [hpc]; rfl
    have e2 : WorkerPC.weight (.recv) = 2 := rfl
    simp only [potential, setWorkerPC, hp, List.length_append, List.length_cons,
      List.length_nil, Bool.false_eq_true, if_false]
    omega
  case sendClosed =>
    intro s i w v task _ _ _ hp
    simp only [potential, hp, Bool.false_eq_true, if_false, if_true]
    omega
  case send =>
    intro s i w v task hw hpc _ _ hp
    have h1 := sum_weight_set s.workers i w (.returning) hw
    have e1 : WorkerPC.weight w.pc = 5 := by rw [hpc]; rfl
    have e2 : WorkerPC.weight (.returning) = 1 := rfl
    simp only [potential, setWorkerPC, hp, List.length_append, List.length_cons,
      List.length_nil, Bool.false_eq_true, if_false]
    omega
  case doneNegative =>
    intro s i w v _ _ _ hp
    simp only [potential, hp, Bool.false_eq_true, if_false, if_true]
    omega
  case done =>
    intro s i w v hw hpc _ hp
    have h1 := sum_weight_set s.workers i w (.done) hw
    have e1 : WorkerPC.weight w.pc = 1 := by rw [hpc]; rfl
    have e2 : WorkerPC.weight (.done) = 0 := rfl
    simp only [potential, setWorkerPC, hp, Bool.false_eq_true, if_false]
    split_ifs <;> omega
  case exceed =>
    intro s t rest hpc hchan _ hp
    simp only [potential, hp, hchan, List.length_cons, Bool.false_eq_true, if_false]
    omega
  case reassignMisuse =>
    intro s t rest hpc hchan _ _ hp
    simp only [potential, hp, hchan, List.length_cons, Bool.false_eq_true, if_false, if_true]
    omega
  case reassign =>
    intro s t rest hpc hchan _ _ hp
    simp only [potential, hp, hchan, List.length_cons, Bool.false_eq_true, if_false,
      List.map_append, List.map_cons, List.map_nil, List.sum_append, List.sum_cons, List.sum_nil,
      WorkerPC.weight]
    omega
  case recoveryEnd =>
    intro s hpc _ _ hp
    simp only [potential, hp, hpc, RecoveryPC.weight, Bool.false_eq_true, if_false]
    omega

theorem step_not_panicked (cfg : Config) (s : State) (a : Action) (s' : State)
    (h : step cfg s a = some s') : s.panicked = false := by
  unfold step at h
  split at h
  · simp at h
  · rename_i hrun
    cases hp : s.panicked with
    | false => rfl
    | true => exact absurd (Or.inl hp) hrun

/-- Every run is finite: whatever the schedule and the verdicts, the number
of actions whose thread could move is bounded by the initial `potential`,
which depends only on the worker count and the batch size. -/
theorem run_is_finite (cfg : Config) (s : State) (acts : List Action) :
    effectiveSteps cfg s acts + potential cfg (acts.foldl (next cfg) s) ≤ potential cfg s := by
  induction acts generalizing s with
  | nil => simp [effectiveSteps]
  | cons a acts ih =>
    simp only [effectiveSteps, List.foldl_cons, next]
    cases h : step cfg s a with
    | none => simpa using ih s
    | some s' =>
      have hd := step_decreases cfg s a s' h (step_not_panicked cfg s a s' h)
      have := ih s'
      simp only [Option.getD_some]
      omega

theorem effectiveSteps_le (cfg : Config) (acts : List Action) :
    effectiveSteps cfg init acts ≤ 3 * cfg.numWorkers + 7 * cfg.tasks.length + 13 := by
  have h := run_is_finite cfg init acts
  have h0 : potential cfg init = 3 * cfg.numWorkers + 7 * cfg.tasks.length + 13 := by
    simp [potential, init, MainPC.weight, RecoveryPC.weight]
  omega

/-- The race between line 96 and line 102 can also end a run inside
`wg.Wait()`: in `scheduleWaitReused`, `main` is blocked in `wg.Wait()` and is
woken by the `wg.Done()` of the last initial worker; the recovery loop runs
`wg.Add(1)` before `main` resumes, and `wg.Wait()` panics on the nonzero
counter. -/
theorem wait_panics_when_reused :
    (exec mainConfig scheduleWaitReused.dropLast).live = true ∧
    (exec mainConfig scheduleWaitReused.dropLast).mainPC = .waitWorkers ∧
    (exec mainConfig scheduleWaitReused.dropLast).wgSema = 1 ∧
    (exec mainConfig scheduleWaitReused.dropLast).wg = 1 ∧
    (exec mainConfig scheduleWaitReused).panicked = true ∧
    (exec mainConfig scheduleWaitReused).mainPC = .waitWorkers := by
  refine ⟨?_, ?_, ?_, ?_, ?_, ?_⟩ <;> decide

/-- In a run, a process that has neither panicked nor returned from `main`
always has a thread that can take a step: the program does not deadlock. -/
theorem live_state_can_step (cfg : Config) (acts : List Action)
    (hlive : (exec cfg acts).live = true) :
    ∃ (a : Action) (s' : State), step cfg (exec cfg acts) a = some s' := by
  have hst := stageInv_exec cfg acts
  have hfifo := fifoInv_exec cfg acts
  have hwg := wgInv_exec cfg acts
  have hwait := waitInv_exec cfg acts
  have hroom : ∀ (i : Nat) (w : Worker) (t : Task), (exec cfg acts).workers.get? i = some w →
      w.pc = .sending t → (exec cfg acts).failChan.length < cfg.tasks.length :=
    fun i w t hw hpc => send_has_room cfg acts i w t hw hpc
  generalize exec cfg acts = s at hlive hst hfifo hwg hwait hroom
  have hrun := not_ended_of_live s hlive
  have hmain : step cfg s .main = mainStep cfg s := by simp only [step, hrun, if_false]
  have hsome : ∀ o : Option State, o.isSome = true → ∃ s', o = some s' := by
    intro o ho
    cases o with
    | none => simp at ho
    | some x => exact ⟨x, rfl⟩
  cases hpc : s.mainPC with
  | startWorkers i =>
    obtain ⟨s', hs'⟩ := hsome (mainStep cfg s) (by
      simp only [mainStep, hpc]
      split_ifs <;> rfl)
    exact ⟨.main, s', by rw [hmain, hs']⟩
  | distribute k =>
    cases htask : cfg.tasks.get? k with
    | none => exact ⟨.main, _, by rw [hmain]; simp only [mainStep, hpc, htask]; rfl⟩
    | some task =>
      have hk : k < cfg.tasks.length := (List.get?_eq_some.mp htask).1
      have hlen := congrArg List.length hfifo
      simp only [hpc, enqueued, List.length_append, List.length_map, List.length_take] at hlen
      have hroom' : s.taskChan.length < cfg.tasks.length := by omega
      exact ⟨.main, _, by rw [hmain]; simp only [mainStep, hpc, htask, hroom', if_true]; rfl⟩
  | closeTaskChan => exact ⟨.main, _, by rw [hmain]; simp only [mainStep, hpc]; rfl⟩
  | startRecovery => exact ⟨.main, _, by rw [hmain]; simp only [mainStep, hpc]; rfl⟩
  | closeFailChan => exact ⟨.main, _, by rw [hmain]; simp only [mainStep, hpc]; rfl⟩
  | printDone => exact ⟨.main, _, by rw [hmain]; simp only [mainStep, hpc]; rfl⟩
  | exited => exact absurd (Or.inr hpc) hrun
  | waitWorkers =>
    by_cases hblocked : s.wgSema = 0 ∧ s.wgWaiters ≠ 0
    · have h0 : s.wg ≠ 0 := hwait hblocked.2
      have hpos : 0 < s.workers.countP Worker.isLive := by
        unfold WgInv at hwg
        omega
      obtain ⟨w, hmem, hw⟩ := List.countP_pos_iff.mp hpos
      obtain ⟨i, hi⟩ := List.get?_of_mem hmem
      have hstep : ∀ v : Verdict, step cfg s (.worker i v) = workerStep cfg s i w v := by
        intro v
        simp only [step, hrun, if_false, hi]
      have htc : s.taskClosed = true := hst.2.1.2 (by simp [hpc, MainPC.stage])
      have hfc : s.failClosed = false := by
        cases h : s.failClosed with
        | false => rfl
        | true =>
          have := hst.2.2.1 h
          simp [hpc, MainPC.stage] at this
      cases hwpc : w.pc with
      | recv =>
        cases hchan : s.taskChan with
        | nil =>
          exact ⟨.worker i .success, _, by
            rw [hstep]; simp only [workerStep, hwpc, hchan, htc, if_true]; rfl⟩
        | cons t rest =>
          exact ⟨.worker i .success, _, by rw [hstep]; simp only [workerStep, hwpc, hchan]; rfl⟩
      | running t =>
        exact ⟨.worker i .success, _, by rw [hstep]; simp only [workerStep, hwpc]; rfl⟩
      | sending t =>
        have hr := hroom i w t hi hwpc
        exact ⟨.worker i .success, _, by
          rw [hstep]; simp only [workerStep, hwpc, hfc, hr, if_true, Bool.false_eq_true, if_false]; rfl⟩
      | returning =>
        exact ⟨.worker i .success, _, by rw [hstep]; simp only [workerStep, hwpc, h0, if_false]; rfl⟩
      | done => simp [Worker.isLive, hwpc] at hw
    · obtain ⟨s', hs'⟩ := hsome (mainStep cfg s) (by
        simp only [mainStep, hpc]
        by_cases hsema : s.wgSema = 0
        · have hw : s.wgWaiters = 0 := by
            by_contra hne
            exact hblocked ⟨hsema, hne⟩
          simp only [hsema, hw, ne_eq, not_true_eq_false, if_false]
          split_ifs <;> rfl
        · simp only [ne_eq, hsema, not_false_eq_true, if_true]
          split_ifs <;> rfl)
      exact ⟨.main, s', by rw [hmain, hs']⟩
end DistTaskScheduler
